import Mathlib

/-!
Shallow embedding of the lexical relationship and prediction engine of
`AdvancedOpenSourceLLM.py` (class `ExpertFieldLLM`), together with proofs of
the behavioural claims made by its specification.

Modelling conventions:
* Python floats are modelled by exact rationals (`Rat`); all constants in the
  source are exact decimals, so no rounding behaviour is lost for the
  properties considered here.
* Python dicts preserve insertion order; they are modelled by association
  lists (`List (String × _)`) where an update of an existing key rewrites the
  value in place and a new key is appended at the end, exactly like a dict.
* `defaultdict(float)` reads default to `0`.  A `defaultdict` read also
  creates an entry with value `0.0` as a side effect; for every computation
  modelled here such a phantom `0.0` entry is observationally equivalent to an
  absent entry (every consumer either defaults a missing key to `0` or guards
  the value with `> 0`), so reads are modelled as pure lookups.
* Regular expressions `\b\w+\b` and `\b\w+\b|[^\w\s]` are modelled for ASCII
  text: maximal runs of word characters, plus (for the second pattern) each
  non-word non-space character as a single token.
-/

set_option maxRecDepth 4000

/-! ### Ordered association lists (Python dict model) -/

/-- First-binding lookup in an association list, like a Python dict read. -/
def assocFind {β : Type} (l : List (String × β)) (k : String) : Option β :=
  (l.find? (fun p => p.1 == k)).map (fun p => p.2)

/-- Dict write `d[k] = f(d.get(k))`: rewrite an existing binding in place, or
append a new binding at the end (Python dicts preserve insertion order). -/
def assocUpdate {β : Type} (l : List (String × β)) (k : String) (f : Option β → β) :
    List (String × β) :=
  match l with
  | [] => [(k, f none)]
  | p :: rest => if p.1 == k then (p.1, f (some p.2)) :: rest else p :: assocUpdate rest k f

/-- `d[k] += v` on a `defaultdict(float)`. -/
def assocAdd (l : List (String × Rat)) (k : String) (v : Rat) : List (String × Rat) :=
  assocUpdate l k (fun o => o.getD 0 + v)

/-- `d[k] = v` on a dict. -/
def assocSet {β : Type} (l : List (String × β)) (k : String) (v : β) : List (String × β) :=
  assocUpdate l k (fun _ => v)

/-- Value read with default `0`, like a `defaultdict(float)` lookup. -/
def assocGet0 (l : List (String × Rat)) (k : String) : Rat :=
  (assocFind l k).getD 0

/-- Python's `max(items, key=lambda x: x[1])`: the first item with maximal
value (later items replace the running maximum only when strictly greater). -/
def maxByValFirst (l : List (String × Rat)) : Option (String × Rat) :=
  l.foldl
    (fun acc p =>
      match acc with
      | none => some p
      | some q => if p.2 > q.2 then some p else some q)
    none

theorem assocFind_nil {β : Type} (k : String) : assocFind ([] : List (String × β)) k = none :=
  rfl

theorem assocFind_cons {β : Type} (p : String × β) (l : List (String × β)) (k : String) :
    assocFind (p :: l) k = if p.1 == k then some p.2 else assocFind l k := by
  cases hb : (p.1 == k) with
  | true =>
      have hfind := List.find?_cons_of_pos (p := fun q : String × β => q.1 == k) l (a := p) hb
      simp [assocFind, hfind, hb]
  | false =>
      have hneg : ¬ ((fun q : String × β => q.1 == k) p = true) := by simp [hb]
      have hfind := List.find?_cons_of_neg (p := fun q : String × β => q.1 == k) l hneg
      simp [assocFind, hfind, hb]

theorem assocFind_update_self {β : Type} (l : List (String × β)) (k : String)
    (f : Option β → β) : assocFind (assocUpdate l k f) k = some (f (assocFind l k)) := by
  induction l with
  | nil => simp [assocFind, assocUpdate]
  | cons p rest ih =>
      unfold assocUpdate
      by_cases h : p.1 = k
      · have hb : (p.1 == k) = true := beq_iff_eq.mpr h
        simp [hb, assocFind_cons]
      · have hb : (p.1 == k) = false := beq_false_of_ne h
        simp only [hb, Bool.false_eq_true, if_false]
        rw [assocFind_cons, assocFind_cons, hb]
        simp [ih]

theorem assocFind_update_ne {β : Type} (l : List (String × β)) (k k' : String)
    (f : Option β → β) (h : k' ≠ k) :
    assocFind (assocUpdate l k f) k' = assocFind l k' := by
  induction l with
  | nil =>
      have hb : (k == k') = false := beq_false_of_ne (Ne.symm h)
      simp [assocFind, assocUpdate, hb]
  | cons p rest ih =>
      unfold assocUpdate
      by_cases hp : p.1 = k
      · have hb : (p.1 == k) = true := beq_iff_eq.mpr hp
        have hb' : (p.1 == k') = false := beq_false_of_ne (by rw [hp]; exact Ne.symm h)
        simp only [hb, if_true]
        rw [assocFind_cons, assocFind_cons]
        simp [hb']
      · have hb : (p.1 == k) = false := beq_false_of_ne hp
        simp only [hb, Bool.false_eq_true, if_false]
        rw [assocFind_cons, assocFind_cons, ih]

theorem assocGet0_add_eq (l : List (String × Rat)) (k : String) (v : Rat) :
    assocGet0 (assocAdd l k v) k = assocGet0 l k + v := by
  rw [assocGet0, assocAdd, assocFind_update_self]
  cases h : assocFind l k <;> simp [assocGet0, h]

theorem assocGet0_add_ne (l : List (String × Rat)) (k k' : String) (v : Rat)
    (h : k' ≠ k) : assocGet0 (assocAdd l k v) k' = assocGet0 l k' := by
  simp [assocGet0, assocAdd, assocFind_update_ne _ _ _ _ h]

/-! ### Tokenisation -/

/-- `\w` for ASCII text: letters, digits and underscore. -/
def isWordChar (c : Char) : Bool :=
  c.isAlphanum || c == '_'

/-- Flush an accumulated (reversed) run of characters into a token list. -/
def flushRun (acc : List Char) : List String :=
  if acc.isEmpty then [] else [String.mk acc.reverse]

/-- Maximal runs of word characters: `re.findall(r'\b\w+\b', s)`. -/
def wordRuns : List Char → List Char → List String
  | [], acc => flushRun acc
  | c :: cs, acc =>
      if isWordChar c then wordRuns cs (c :: acc)
      else flushRun acc ++ wordRuns cs []

/-- Word runs plus isolated non-word non-space characters:
`re.findall(r'\b\w+\b|[^\w\s]', s)`. -/
def wordRunsPunct : List Char → List Char → List String
  | [], acc => flushRun acc
  | c :: cs, acc =>
      if isWordChar c then wordRunsPunct cs (c :: acc)
      else flushRun acc ++ (if c.isWhitespace then [] else [String.mk [c]]) ++ wordRunsPunct cs []

/-- `re.findall(r'\b\w+\b', text.lower())`. -/
def tokenizeWords (text : String) : List String :=
  wordRuns (text.data.map Char.toLower) []

/-- `re.findall(r'\b\w+\b|[^\w\s]', text.lower())`. -/
def tokenizeAll (text : String) : List String :=
  wordRunsPunct (text.data.map Char.toLower) []

/-- The characters of Python's `string.punctuation`. -/
def punctuationChars : List Char :=
  ['!', '\x22', '#', '$', '%', '&', '\x27', '(', ')', '*', '+', ',', '-', '.', '/',
   ':', ';', '<', '=', '>', '?', '@', '[', '\\', ']', '^', '_', '\x60', '\x7b', '|', '\x7d', '~']

/-- Python's `w in string.punctuation`: substring containment in the
punctuation string (for one-character tokens this is just membership). -/
def isPunct (w : String) : Bool :=
  punctuationChars.tails.any (fun t => w.data.isPrefixOf t)

/-- Python's `not text.strip()`: true when every character is whitespace. -/
def stripEmpty (text : String) : Bool :=
  text.data.all Char.isWhitespace

/-- Python's `str.lower()` (ASCII). -/
def lowerStr (s : String) : String :=
  String.mk (s.data.map Char.toLower)

/-- Python's `word[:i]`. -/
def takeStr (s : String) (n : Nat) : String :=
  String.mk (s.data.take n)

/-- Python's `str.strip()`: whitespace removed from both ends. -/
def trimStr (s : String) : String :=
  String.mk (((s.data.dropWhile Char.isWhitespace).reverse.dropWhile Char.isWhitespace).reverse)

/-- Python's `str.split(sep)` for a one-character separator (splits at every
occurrence, keeping empty fields). -/
def splitOnCharAux (sep : Char) : List Char → List Char → List (List Char)
  | [], acc => [acc.reverse]
  | c :: cs, acc =>
      if c == sep then acc.reverse :: splitOnCharAux sep cs []
      else splitOnCharAux sep cs (c :: acc)

def splitOnChar (sep : Char) (s : String) : List String :=
  (splitOnCharAux sep s.data []).map String.mk

/-- Maximal runs of non-whitespace characters. -/
def nonSpaceRuns : List Char → List Char → List String
  | [], acc => flushRun acc
  | c :: cs, acc =>
      if c.isWhitespace then flushRun acc ++ nonSpaceRuns cs []
      else nonSpaceRuns cs (c :: acc)

/-- Python's `text.split()` (no separator argument): whitespace split that
drops empty fields. -/
def splitWhitespace (text : String) : List String :=
  nonSpaceRuns text.data []

/-! ### Data model -/

/-- A lexicon entry (`self.word_db[word]`).  The Python key `'class'` is
`wclass` here (`class` is a Lean keyword); the `pattern_data` blob is not
modelled (no claim reads it, and the import-time guard that decides claim C5
never inspects it). -/
structure WordData where
  wclass : String
  singular : String
  plural : String
  synonyms : List String
  antonyms : List String
  meaning : String
  acronyms : List String
  expert_field : String
deriving DecidableEq

/-- Per-word pattern index (`self.pattern_relationships[word]`). -/
structure PatternData where
  before : List (String × Rat)
  after : List (String × Rat)
  position_context : List (String × List (String × Rat))
deriving DecidableEq

def emptyPatternData : PatternData := ⟨[], [], []⟩

/-- `self.grammar_rules`; a key missing from the Python dict behaves exactly
like an empty map, so each table is total here. -/
structure GrammarRules where
  common_pairs : List (String × List String)
  compatibility_rules : List (String × List (String × Rat))
  flow_rules : List (String × List (String × Rat))
  sentence_order : List (String × List String)
deriving DecidableEq

/-- One emotional tone (`self.emotional_tones[tone]`). -/
structure ToneData where
  weight : Rat
  words : List String
deriving DecidableEq

/-- One domain specialist (`self.specialists[domain]`). -/
structure DomainData where
  vocabulary : List String
  weight : Rat
deriving DecidableEq

/-- One user profile (`self.user_profiles[user]`), restricted to the fields
the enhancement pipeline reads. -/
structure UserProfile where
  preferred_words : List String
  learning_adaptation : Rat
deriving DecidableEq

/-- The engine state: the mutable attributes of `ExpertFieldLLM` the core
engine reads.  `min_words`/`max_words` are the plain instance attributes the
running code actually uses (see claim C1: the validating property setters in
`__init__` are never installed on the class); they are only ever assigned
non-negative integers (`3`, `20`, and `int()` of a `\d+` match). -/
structure LLMState where
  word_db : List (String × WordData)
  word_relationships : List (String × List (String × Rat))
  pattern_relationships : List (String × PatternData)
  grammar_rules : GrammarRules
  question_words : List String
  answer_words : List String
  fact_words : List String
  theory_words : List String
  min_words : Nat
  max_words : Nat
  emotional_tones : List (String × ToneData)
  specialists : List (String × DomainData)
  creativity_level : Rat
  creativity_boost : Rat
  user_profiles : List (String × UserProfile)
  current_user : String
deriving DecidableEq

/-! ### Relationship graph (`self.word_relationships`) -/

/-- `self.word_relationships[a][b]` read (defaults to `0.0`). -/
def relGet (rel : List (String × List (String × Rat))) (a b : String) : Rat :=
  assocGet0 ((assocFind rel a).getD []) b

/-- `self.word_relationships[a][b] += d`. -/
def relAdd (rel : List (String × List (String × Rat))) (a b : String) (d : Rat) :
    List (String × List (String × Rat)) :=
  assocUpdate rel a (fun row => assocAdd (row.getD []) b d)

theorem relGet_add (rel : List (String × List (String × Rat))) (a b x y : String) (d : Rat) :
    relGet (relAdd rel a b d) x y = relGet rel x y + (if x = a ∧ y = b then d else 0) := by
  by_cases hx : x = a
  · subst hx
    have hrow : assocFind (relAdd rel x b d) x
        = some (assocAdd ((assocFind rel x).getD []) b d) := assocFind_update_self rel x _
    by_cases hy : y = b
    · subst hy
      rw [relGet, hrow]
      simp only [Option.getD_some]
      rw [assocGet0_add_eq]
      simp [relGet]
    · rw [relGet, hrow]
      simp only [Option.getD_some]
      rw [assocGet0_add_ne _ _ _ _ hy]
      simp [relGet, hy]
  · rw [relGet, relAdd, assocFind_update_ne _ _ _ _ hx]
    simp [relGet, hx]

/-! ### Pattern index (`self.pattern_relationships`) -/

def patFind (pat : List (String × PatternData)) (w : String) : PatternData :=
  (assocFind pat w).getD emptyPatternData

/-- `self.pattern_relationships[w]['before'][other]` read. -/
def patBeforeGet (pat : List (String × PatternData)) (w other : String) : Rat :=
  assocGet0 (patFind pat w).before other

/-- `self.pattern_relationships[w]['after'][other]` read. -/
def patAfterGet (pat : List (String × PatternData)) (w other : String) : Rat :=
  assocGet0 (patFind pat w).after other

/-- `self.pattern_relationships[w]['position_context'][pos][other]` read. -/
def patPosGet (pat : List (String × PatternData)) (w pos other : String) : Rat :=
  assocGet0 ((assocFind (patFind pat w).position_context pos).getD []) other

/-- `self.pattern_relationships[w]['before'][other] += d`. -/
def patBeforeAdd (pat : List (String × PatternData)) (w other : String) (d : Rat) :
    List (String × PatternData) :=
  assocUpdate pat w (fun o =>
    let pd := o.getD emptyPatternData
    { pd with before := assocAdd pd.before other d })

/-- `self.pattern_relationships[w]['after'][other] += d`. -/
def patAfterAdd (pat : List (String × PatternData)) (w other : String) (d : Rat) :
    List (String × PatternData) :=
  assocUpdate pat w (fun o =>
    let pd := o.getD emptyPatternData
    { pd with after := assocAdd pd.after other d })

/-- `self.pattern_relationships[w]['position_context'][pos][other] += d`. -/
def patPosAdd (pat : List (String × PatternData)) (w pos other : String) (d : Rat) :
    List (String × PatternData) :=
  assocUpdate pat w (fun o =>
    let pd := o.getD emptyPatternData
    { pd with position_context :=
        assocUpdate pd.position_context pos (fun r => assocAdd (r.getD []) other d) })

/-! ### Word-class lookup and known-word ratio -/

/-- Fallback entry for a `self.word_db[word]` read; the engine only performs
such reads for keys it has just inserted, so this default is never observed. -/
def defaultWordData : WordData :=
  ⟨"", "", "", [], [], "", [], "general"⟩

/-- The scan `for i in range(1, len(word) + 1): partial = word[:i] ...` of
`_get_word_class`, over an explicit list of cut lengths. -/
def classScan (db : List (String × WordData)) (w : String) : List Nat → String
  | [] => "unknown"
  | i :: rest =>
      match assocFind db (takeStr w i) with
      | some d => d.wclass
      | none => classScan db w rest

/-- The cut lengths `range(1, len(word) + 1)`. -/
def cutLengths (w : String) : List Nat :=
  (List.range w.length).map (fun i => i + 1)

/-- `ExpertFieldLLM._get_word_class`: exact lookup, then shortest-first
prefix scan, else the `'unknown'` sentinel.  Total by construction, which is
the embedding of "never raises". -/
def get_word_class (db : List (String × WordData)) (w : String) : String :=
  match assocFind db w with
  | some d => d.wclass
  | none => classScan db w (cutLengths w)

/-- `ExpertFieldLLM._calculate_known_words_ratio` over an already-tokenised
word list (the function's actual argument in the source). -/
def known_words_ratio (db : List (String × WordData)) (words : List String) : Rat :=
  let word_count := (words.filter (fun w => !(isPunct w))).length
  if word_count = 0 then 0
  else
    let known_count :=
      (words.filter (fun w => !(isPunct w) && get_word_class db w != "unknown")).length
    ((known_count : Rat) / (word_count : Rat)) * 100

/-- `ExpertFieldLLM._detect_sentence_type`. -/
def detect_sentence_type (st : LLMState) (words : List String) : String :=
  if words.any (fun w => st.question_words.contains w) then "question"
  else if words.any (fun w => st.answer_words.contains w) then "answer"
  else if words.any (fun w => st.fact_words.contains w) then "fact"
  else if words.any (fun w => st.theory_words.contains w) then "theory"
  else "statement"

/-- Python's `needle in hay` on strings (substring containment). -/
def strContains (hay needle : String) : Bool :=
  hay.data.tails.any (fun t => needle.data.isPrefixOf t)

/-! ### Dictionary import -/

/-- `[p.strip() for p in line.split(';')]`. -/
def parseFields (line : String) : List String :=
  (splitOnChar ';' line).map (fun p => trimStr p)

/-- `[s.strip().lower() for s in field.split(',')] if field else []`. -/
def csvList (s : String) : List String :=
  if s = "" then [] else (splitOnChar ',' s).map (fun x => lowerStr (trimStr x))

/-- Parse one dictionary feed line into a keyed record, or `none` for the
lines `import_dictionary` skips (blank, comment, fewer than two fields).
`pattern_data` (field 9) is not modelled. -/
def lineRecord (line : String) : Option (String × WordData) :=
  if trimStr line = "" then none
  else if line.data.head? == some '#' then none
  else
    let parts := parseFields line
    if parts.length < 2 then none
    else
      let word := lowerStr (parts.getD 1 "")
      some (word,
        { wclass := parts.getD 0 ""
          singular := if parts.length > 2 then parts.getD 2 "" else word
          plural := if parts.length > 3 then parts.getD 3 "" else ""
          synonyms := if parts.length > 4 then csvList (parts.getD 4 "") else []
          antonyms := if parts.length > 5 then csvList (parts.getD 5 "") else []
          meaning := if parts.length > 6 then parts.getD 6 "" else ""
          acronyms := if parts.length > 7 then csvList (parts.getD 7 "") else []
          expert_field := "general" })

/-- One symmetric-edge loop of `_build_relationships`
(`rel[word][x] += c; rel[x][word] += c` for every `x` in `l`). -/
def pairFold (word : String) (c : Rat) (l : List String) (st : LLMState) : LLMState :=
  l.foldl
    (fun s x =>
      { s with word_relationships := relAdd (relAdd s.word_relationships word x c) x word c })
    st

/-- The one-directional class-pair loop of `_build_relationships`. -/
def classPairFold (word : String) (pairs : List String) (dbl : List (String × WordData))
    (st : LLMState) : LLMState :=
  dbl.foldl
    (fun s p =>
      if p.1 ≠ word ∧ pairs.contains p.2.wclass then
        { s with word_relationships := relAdd s.word_relationships word p.1 (3/10) }
      else s)
    st

/-- `ExpertFieldLLM._build_relationships`: synonym (`+2.0`), antonym
(`-1.5`) and acronym (`+1.0`) edges both ways, then the one-directional
class-pair rule (`+0.3` from the new word toward every compatible word). -/
def build_relationships (st : LLMState) (word : String) : LLMState :=
  let data := (assocFind st.word_db word).getD defaultWordData
  let st1 := pairFold word 2 data.synonyms st
  let st2 := pairFold word (-(3/2)) data.antonyms st1
  let st3 := pairFold word 1 data.acronyms st2
  let pairs := (assocFind st.grammar_rules.common_pairs data.wclass).getD []
  classPairFold word pairs st3.word_db st3

/-- The loop body of `_check_partial_matches` over an explicit list of
prefix lengths. -/
def partFold (word : String) (is : List Nat) (st : LLMState) : LLMState :=
  is.foldl
    (fun s i =>
      let part := takeStr word i
      if (assocFind s.word_db part).isSome then
        let weight := (1/2 : Rat) * ((i : Rat) / (word.length : Rat))
        { s with word_relationships :=
            relAdd (relAdd s.word_relationships word part weight) part word weight }
      else s)
    st

/-- `ExpertFieldLLM._check_partial_matches`: proper-prefix edges
(`range(1, len(word))`), weight `0.5 * (i / len(word))`, both directions. -/
def checkPartMatches (st : LLMState) (word : String) : LLMState :=
  partFold word ((List.range (word.length - 1)).map (fun i => i + 1)) st

/-- Processing of a single dictionary feed line inside `import_dictionary`'s
loop: skip unparseable lines, skip words already in the lexicon (first
occurrence wins), otherwise insert the entry and build its edges. -/
def importLine (st : LLMState) (line : String) : LLMState :=
  match lineRecord line with
  | none => st
  | some (word, entry) =>
      if (assocFind st.word_db word).isSome then st
      else
        let st' := { st with word_db := st.word_db ++ [(word, entry)] }
        checkPartMatches (build_relationships st' word) word

/-! ### Pattern relationship strength and sentence analysis -/

/-- `ExpertFieldLLM._get_word_position`. -/
def get_word_position (index total : Nat) : String :=
  if total ≤ 1 then "single_word"
  else if index = 0 then "beginning_sentence"
  else if index = total - 1 then "end_sentence"
  else "middle_sentence"

/-- `ExpertFieldLLM._calculate_grammatical_compatibility`:
`compatibility_rules.get(class1, {}).get(class2, 0.1)`. -/
def calculate_grammatical_compatibility (st : LLMState) (w1 w2 : String) : Rat :=
  let c1 := get_word_class st.word_db w1
  let c2 := get_word_class st.word_db w2
  (assocFind ((assocFind st.grammar_rules.compatibility_rules c1).getD []) c2).getD (1/10)

/-- `ExpertFieldLLM._calculate_semantic_proximity`. -/
def calculate_semantic_proximity (st : LLMState) (w1 w2 : String) (all_words : List String)
    (ci : Nat) : Rat :=
  let row1 := (assocFind st.word_relationships w1).getD []
  let shared := (row1.filter (fun p => decide (0 < relGet st.word_relationships w2 p.1))).length
  let proximity : Rat := (shared : Rat) * (1/5)
  let j := if all_words.contains w2 then all_words.indexOf w2 else ci
  let distance := max ci j - min ci j
  let proximity := if 0 < distance then proximity + (1 / (distance : Rat)) * (3/10) else proximity
  min 1 proximity

/-- `ExpertFieldLLM._calculate_contextual_relevance`. -/
def calculate_contextual_relevance (st : LLMState) (w1 w2 : String)
    (all_words : List String) : Rat :=
  let theme := all_words.filter (fun w => w ≠ w1 && w ≠ w2 && !(isPunct w))
  let shared := ((theme.take 3).filter
    (fun tw => decide (0 < relGet st.word_relationships w1 tw)
      && decide (0 < relGet st.word_relationships w2 tw))).length
  min (1/2) ((shared : Rat) * (1/5))

/-- `ExpertFieldLLM._calculate_pattern_relationship`: the weighted strength,
floored at `0` by the final `max(0.0, strength)`. -/
def calculate_pattern_relationship (st : LLMState) (w1 w2 : String) (all_words : List String)
    (ci : Nat) : Rat :=
  let strength :=
    |relGet st.word_relationships w1 w2| * (2/5)
    + calculate_semantic_proximity st w1 w2 all_words ci * (1/4)
    + calculate_grammatical_compatibility st w1 w2 * (1/5)
    + calculate_contextual_relevance st w1 w2 all_words * (3/20)
  max 0 strength

/-- `ExpertFieldLLM._build_relationship_patterns`: accumulate the strength
into `before`/`after` of the current word and into its `position_context`
bucket for the other word's sentence position. -/
def build_relationship_patterns (st : LLMState) (cw : String) (all_words : List String)
    (ci : Nat) : LLMState :=
  all_words.enum.foldl
    (fun s p =>
      if p.1 = ci ∨ isPunct p.2 then s
      else
        let strength := calculate_pattern_relationship s cw p.2 all_words ci
        let pat1 :=
          if p.1 < ci then patBeforeAdd s.pattern_relationships cw p.2 strength
          else patAfterAdd s.pattern_relationships cw p.2 strength
        let pos := get_word_position p.1 all_words.length
        { s with pattern_relationships := patPosAdd pat1 cw pos p.2 strength })
    st

/-- The mutation `analyze_patterns` performs on `self.pattern_relationships`:
for every non-punctuation position, run `_build_relationship_patterns`.  (The
report dictionary it returns and the training-mode `pattern_data` counters do
not touch the pattern index and are outside the modelled state.) -/
def analyze_patterns_state (st : LLMState) (sentence : String) : LLMState :=
  let words := tokenizeAll sentence
  words.enum.foldl
    (fun s p => if isPunct p.2 then s else build_relationship_patterns s p.2 words p.1)
    st

/-! ### Prediction engine -/

/-- `ExpertFieldLLM._get_expected_classes`. -/
def get_expected_classes (st : LLMState) (current_class : String) : List String :=
  let expected := ((assocFind st.grammar_rules.flow_rules current_class).getD []).map
    (fun p => p.1)
  if expected = [] then ["noun", "verb"] else expected

/-- `words[-1]` on a list known to be non-empty at every call site
(`''` stands for the unreachable empty case). -/
def lastD (l : List String) : String := l.getLast?.getD ""

/-- The score dictionary built by
`ExpertFieldLLM._simple_relationship_prediction` (insertion-ordered). -/
def simple_scores (st : LLMState) (words : List String) : List (String × Rat) :=
  let last_word := lastD words
  let sc0 := ((assocFind st.word_relationships last_word).getD []).foldl
    (fun sc p => if 0 < p.2 then assocAdd sc p.1 (p.2 * (1/2)) else sc) []
  let sc1 := (patFind st.pattern_relationships last_word).after.foldl
    (fun sc p => assocAdd sc p.1 (p.2 * (3/10))) sc0
  let expected := get_expected_classes st (get_word_class st.word_db last_word)
  st.word_db.foldl
    (fun sc p => if expected.contains p.2.wclass then assocAdd sc p.1 (1/5) else sc) sc1

/-- `ExpertFieldLLM._calculate_grammatical_flow`:
`flow_rules.get(last_class, {}).get(candidate_class, 0.1)`. -/
def calculate_grammatical_flow (st : LLMState) (last_word candidate_word : String) : Rat :=
  (assocFind
    ((assocFind st.grammar_rules.flow_rules (get_word_class st.word_db last_word)).getD [])
    (get_word_class st.word_db candidate_word)).getD (1/10)

/-- `ExpertFieldLLM._calculate_contextual_coherence`. -/
def calculate_contextual_coherence (st : LLMState) (candidate_word : String)
    (previous_words : List String) : Rat :=
  let coherence := (previous_words.drop (previous_words.length - 3)).foldl
    (fun c prev =>
      let rs := relGet st.word_relationships candidate_word prev
      if 0 < rs then c + rs * (1/5) else c) 0
  min 1 coherence

/-- `ExpertFieldLLM._get_semantic_field`. -/
def get_semantic_field (st : LLMState) (word : String) : String :=
  match assocFind st.word_db word with
  | none => "general"
  | some d =>
      let meaning := lowerStr d.meaning
      if ["computer", "digital", "electronic"].any (fun t => strContains meaning t) then
        "technology"
      else if ["science", "research", "study"].any (fun t => strContains meaning t) then
        "science"
      else if ["math", "calculate", "number"].any (fun t => strContains meaning t) then
        "mathematics"
      else "general"

/-- `ExpertFieldLLM._calculate_field_consistency`. -/
def calculate_field_consistency (st : LLMState) (candidate_word : String)
    (previous_words : List String) : Rat :=
  let cf := get_semantic_field st candidate_word
  if cf = "general" then 3/10
  else
    (((previous_words.drop (previous_words.length - 2)).filter
      (fun p => get_semantic_field st p == cf)).length : Rat) * (1/5)

/-- The score dictionary built by
`ExpertFieldLLM._complex_relationship_prediction` (insertion-ordered; only
strictly positive totals are stored). -/
def complex_scores (st : LLMState) (words : List String) : List (String × Rat) :=
  let last_word := lastD words
  st.word_db.foldl
    (fun sc p =>
      if p.1 = last_word then sc
      else
        let total :=
          max 0 (relGet st.word_relationships last_word p.1) * (3/10)
          + patAfterGet st.pattern_relationships last_word p.1 * (1/4)
          + calculate_grammatical_flow st last_word p.1 * (1/5)
          + calculate_contextual_coherence st p.1 words * (3/20)
          + calculate_field_consistency st p.1 words * (1/10)
        if 0 < total then assocSet sc p.1 total else sc)
    []

/-- Python's stable `sorted(key=lambda x: x[1], reverse=True)`: items are
inserted left to right, each one after every earlier item of greater-or-equal
score, so equal scores keep their first-encountered order. -/
def insertDesc (x : String × Rat) : List (String × Rat) → List (String × Rat)
  | [] => [x]
  | y :: ys => if x.2 > y.2 then x :: y :: ys else y :: insertDesc x ys

def sortDescStable (l : List (String × Rat)) : List (String × Rat) :=
  l.foldl (fun acc x => insertDesc x acc) []

/-- `ExpertFieldLLM._get_top_predictions` with the default `top_n=10`. -/
def get_top_predictions (scores : List (String × Rat)) : List (String × Rat) :=
  (sortDescStable (scores.filter (fun p => decide (0 < p.2)))).take 10

/-- `ExpertFieldLLM.predict_next`.  The result is a sum because the source
returns two different shapes: a bare empty list when the text has no word
tokens (`return []`), and otherwise the pair `(predictions, known_ratio)`. -/
def predict_next (st : LLMState) (text : String) (mode : String) :
    Sum (List (String × Rat)) (List (String × Rat) × Rat) :=
  let words := (tokenizeWords text).filter (fun w => !(isPunct w))
  if words = [] then Sum.inl []
  else
    let known_ratio := known_words_ratio st.word_db (tokenizeAll text)
    let predictions :=
      if mode = "simple" then get_top_predictions (simple_scores st words)
      else get_top_predictions (complex_scores st words)
    Sum.inr (predictions, known_ratio)

/-- The score dictionary underlying `predict_next`'s ranked list (used to
state the stable tie-break property of claim C4). -/
def predict_scores (st : LLMState) (text : String) (mode : String) : List (String × Rat) :=
  let words := (tokenizeWords text).filter (fun w => !(isPunct w))
  if words = [] then []
  else if mode = "simple" then simple_scores st words
  else complex_scores st words

/-! ### Context deduction and the enhancement pipeline -/

/-- Result of `ExpertFieldLLM._deduce_context`. -/
structure ContextInfo where
  main_topic : String
  main_expert : String
  topic_confidence : Rat
  expert_confidence : Rat
deriving DecidableEq

/-- `collections.Counter(l)` as an insertion-ordered multiset: distinct
elements in first-occurrence order with their multiplicities. -/
def countsInOrder (l : List String) : List (String × Nat) :=
  l.foldl (fun acc w => assocUpdate acc w (fun o => o.getD 0 + 1)) []

/-- The `noun_weights` dictionary of `_deduce_context`: first noun gets
`2.0`, every noun gets `count * 0.5`, synonyms of each noun occurrence get
`0.3`. -/
def noun_weights (st : LLMState) (nouns : List String) : List (String × Rat) :=
  match nouns with
  | [] => []
  | n0 :: _ =>
      let w0 : List (String × Rat) := [(n0, 2)]
      let w1 := (countsInOrder nouns).foldl
        (fun acc p => assocAdd acc p.1 ((p.2 : Rat) * (1/2))) w0
      nouns.foldl
        (fun acc n =>
          (((assocFind st.word_db n).map (fun d => d.synonyms)).getD []).foldl
            (fun a s => assocAdd a s (3/10)) acc)
        w1

/-- `ExpertFieldLLM._deduce_context`. -/
def deduce_context (st : LLMState) (text : String) : ContextInfo :=
  let words := (tokenizeWords text).filter (fun w => !(isPunct w))
  let nouns := words.filter (fun w => get_word_class st.word_db w == "noun")
  let nw := noun_weights st nouns
  let expert_scores := words.foldl
    (fun acc w =>
      match assocFind st.word_db w with
      | some d => if d.expert_field ≠ "general" then assocAdd acc d.expert_field 1 else acc
      | none => acc)
    []
  { main_topic :=
      match maxByValFirst nw with
      | some p => p.1
      | none => (words.head?).getD "general"
    main_expert := ((maxByValFirst expert_scores).map (fun p => p.1)).getD "general"
    topic_confidence := ((maxByValFirst nw).map (fun p => p.2)).getD 0
    expert_confidence := ((maxByValFirst expert_scores).map (fun p => p.2)).getD 0 }

/-- `ExpertFieldLLM.get_contextual_predictions`. -/
def get_contextual_predictions (st : LLMState) (text : String)
    (base_predictions : List (String × Rat)) : List (String × Rat) :=
  let context := deduce_context st text
  if context.main_topic = "" then base_predictions
  else
    sortDescStable (base_predictions.map (fun p =>
      let boost : Rat :=
        match assocFind st.word_relationships context.main_topic with
        | none => 0
        | some row =>
            match assocFind row p.1 with
            | none => 0
            | some v => v * (1/10)
      (p.1, p.2 * (1 + boost))))

/-- `ExpertFieldLLM.detect_emotional_tone` (its return value; the stored
`current_tone` is immediately read by `adapt_to_tone` and threaded here
explicitly). -/
def detect_emotional_tone (st : LLMState) (text : String) : String :=
  let words := splitWhitespace (lowerStr text)
  let tone_scores := st.emotional_tones.foldl
    (fun acc p =>
      p.2.words.foldl
        (fun a tw => if words.contains tw then assocAdd a p.1 p.2.weight else a) acc)
    []
  ((maxByValFirst tone_scores).map (fun p => p.1)).getD "neutral"

/-- `ExpertFieldLLM.adapt_to_tone`. -/
def adapt_to_tone (st : LLMState) (tone : String) (predictions : List (String × Rat)) :
    List (String × Rat) :=
  if tone = "neutral" then predictions
  else
    let tone_data := (assocFind st.emotional_tones tone).getD ⟨1, []⟩
    sortDescStable (predictions.map (fun p =>
      if tone_data.words.contains p.1 then (p.1, p.2 * tone_data.weight) else p))

/-- `ExpertFieldLLM.detect_domain`. -/
def detect_domain (st : LLMState) (text : String) : String :=
  let words := (splitWhitespace (lowerStr text)).dedup
  let domain_scores := st.specialists.foldl
    (fun acc p =>
      let overlap := (words.filter (fun w => p.2.vocabulary.contains w)).length
      assocSet acc p.1 ((overlap : Rat) * p.2.weight))
    []
  ((maxByValFirst domain_scores).map (fun p => p.1)).getD "general"

/-- `ExpertFieldLLM.get_domain_enhanced_predictions`.  The source indexes
`self.specialists[domain]` with a key that `detect_domain` always draws from
the specialists table, so the defaulted lookup is equivalent. -/
def get_domain_enhanced_predictions (st : LLMState) (domain : String)
    (base_predictions : List (String × Rat)) : List (String × Rat) :=
  if domain = "general" then base_predictions
  else
    let domain_data := (assocFind st.specialists domain).getD ⟨[], 1⟩
    sortDescStable (base_predictions.map (fun p =>
      if domain_data.vocabulary.contains p.1 then (p.1, p.2 * domain_data.weight) else p))

/-- `ExpertFieldLLM.get_creative_predictions` (its `words` parameter is
unused in the source). -/
def get_creative_predictions (st : LLMState) (base_predictions : List (String × Rat)) :
    List (String × Rat) :=
  if st.creativity_level < (1/10) then base_predictions
  else
    sortDescStable (base_predictions.map (fun p =>
      if p.2 < (7/10) then (p.1, p.2 * (1 + st.creativity_boost)) else p))

/-- `ExpertFieldLLM.get_personalized_predictions`. -/
def get_personalized_predictions (st : LLMState) (base_predictions : List (String × Rat)) :
    List (String × Rat) :=
  let profile := (assocFind st.user_profiles st.current_user).getD ⟨[], 1⟩
  if profile.preferred_words = [] then base_predictions
  else
    sortDescStable (base_predictions.map (fun p =>
      if profile.preferred_words.contains p.1 then
        (p.1, p.2 * (1 + profile.learning_adaptation * (1/5)))
      else p))

/-- `ExpertFieldLLM.enhanced_predict_next`.  The feature-flag resets at the
top mutate four booleans no modelled computation reads.  When the text
tokenises to no words, `predict_next` returns a bare list and the unpacking
assignment `base_predictions, known_ratio = self.predict_next(...)` raises a
`ValueError`, modelled as the error case. -/
def enhanced_predict_next (st : LLMState) (text : String) (mode : String) :
    Except String (List (String × Rat) × Rat) :=
  if stripEmpty text then Except.ok ([], 100)
  else
    match predict_next st text mode with
    | Sum.inl _ => Except.error "ValueError: not enough values to unpack"
    | Sum.inr (base_predictions, known_ratio) =>
        if base_predictions = [] then Except.ok (base_predictions, known_ratio)
        else
          let p1 := get_contextual_predictions st text base_predictions
          let tone := detect_emotional_tone st text
          let p2 := adapt_to_tone st tone p1
          let domain := detect_domain st text
          let p3 := get_domain_enhanced_predictions st domain p2
          let p4 := get_creative_predictions st p3
          let p5 := get_personalized_predictions st p4
          Except.ok (p5, known_ratio)

/-! ### Sentence assembly (`generate_sentence`) -/

/-- `ExpertFieldLLM._is_grammatically_compatible`:
`flow_rules.get(last_class, {}).get(candidate_class, 0) > 0.3`, vacuously
true for the empty "last word". -/
def is_grammatically_compatible (st : LLMState) (last_word candidate_word : String) : Bool :=
  if last_word = "" then true
  else
    decide ((3/10 : Rat) <
      (assocFind
        ((assocFind st.grammar_rules.flow_rules (get_word_class st.word_db last_word)).getD [])
        (get_word_class st.word_db candidate_word)).getD 0)

/-- `ExpertFieldLLM._get_most_probable_classes`. -/
def get_most_probable_classes (st : LLMState) (input_words : List String)
    (predictions : List (String × Rat)) : List String :=
  let sentence_type := detect_sentence_type st input_words
  let sentence_order :=
    (assocFind st.grammar_rules.sentence_order sentence_type).getD ["noun", "verb", "noun"]
  let cw0 := ((sentence_order.drop input_words.length).enum).foldl
    (fun acc p => assocAdd acc p.2 (1 / ((p.1 : Rat) + 1))) []
  let cw1 := predictions.foldl
    (fun acc p => assocAdd acc (get_word_class st.word_db p.1) (p.2 * (1/2))) cw0
  (sortDescStable cw1).map (fun p => p.1)

/-- `ExpertFieldLLM._find_best_word_for_class`: the first candidate of
maximal combined score (Python's `max` keeps the earliest maximum). -/
def find_best_word_for_class (st : LLMState) (predictions : List (String × Rat))
    (target_class : String) (existing_words : List String) : Option String :=
  let candidates := predictions.filterMap (fun p =>
    if get_word_class st.word_db p.1 == target_class
        && !(existing_words.contains p.1)
        && is_grammatically_compatible st (lastD existing_words) p.1 then
      let pattern_score : Rat :=
        if existing_words.isEmpty then 0
        else patAfterGet st.pattern_relationships (lastD existing_words) p.1 * (3/10)
      some (p.1, p.2 + pattern_score)
    else none)
  (maxByValFirst candidates).map (fun p => p.1)

/-- The class-driven expansion loop of `generate_sentence`: stop once the
configured maximum is reached; Python's `if best_word:` skips both `None`
and an empty-string word. -/
def expand_by_classes (st : LLMState) (predictions : List (String × Rat)) :
    List String → List String → List String
  | [], g => g
  | c :: rest, g =>
      if st.max_words ≤ g.length then g
      else
        match find_best_word_for_class st predictions c g with
        | some w =>
            if w = "" then expand_by_classes st predictions rest g
            else expand_by_classes st predictions rest (g ++ [w])
        | none => expand_by_classes st predictions rest g

/-- One scan of the backfill `for` loop: the first prediction not already
used and compatible with the current last word. -/
def find_backfill_word (st : LLMState) (predictions : List (String × Rat))
    (g : List String) : Option String :=
  (predictions.find? (fun p =>
    !(g.contains p.1) && is_grammatically_compatible st (lastD g) p.1)).map (fun p => p.1)

/-- The backfill `while` loop of `generate_sentence`: append the next unused
compatible prediction until the configured minimum is reached or no suitable
word exists. -/
def backfill (st : LLMState) (predictions : List (String × Rat)) (g : List String) :
    List String :=
  if _h : g.length < st.min_words then
    match find_backfill_word st predictions g with
    | some w => backfill st predictions (g ++ [w])
    | none => g
  else g
termination_by st.min_words - g.length
decreasing_by simp [List.length_append]; omega

/-- The token sequence `generate_sentence` assembles for a non-empty input:
expansion, backfill, then truncation to the configured maximum. -/
def generate_sentence_words (st : LLMState) (input_words : List String)
    (predictions : List (String × Rat)) : List String :=
  let expected_classes := get_most_probable_classes st input_words predictions
  let g1 := expand_by_classes st predictions expected_classes input_words
  let g2 := backfill st predictions g1
  if st.max_words < g2.length then g2.take st.max_words else g2

/-- Python's `str.capitalize()`: first character upper-cased, the rest
lower-cased. -/
def capitalizeWord (w : String) : String :=
  match w.data with
  | [] => ""
  | c :: cs => String.mk (c.toUpper :: cs.map Char.toLower)

/-- `ExpertFieldLLM.generate_sentence`. -/
def generate_sentence (st : LLMState) (text : String)
    (predictions : List (String × Rat)) : String :=
  let input_words := (tokenizeWords text).filter (fun w => !(isPunct w))
  if input_words = [] then text
  else
    let sentence_type := detect_sentence_type st input_words
    match generate_sentence_words st input_words predictions with
    | [] => text
    | w :: rest =>
        let sentence := String.intercalate " " (capitalizeWord w :: rest)
        if sentence_type = "question" then sentence ++ "?"
        else if 3 ≤ rest.length + 1 then sentence ++ "."
        else sentence

/-! ### Word-count limits (claim C1) -/

/-- The `min_words`/`max_words` pair.  At runtime these are plain instance
attributes: the `@property`/setter definitions in the source are local
functions inside `__init__` and are never attached to the class, so reads and
writes bypass them entirely. -/
structure WordLimits where
  min_words : Int
  max_words : Int
deriving DecidableEq

/-- The invariant claimed for the word-count bounds. -/
def limitsInvariant (s : WordLimits) : Prop :=
  1 ≤ s.min_words ∧ s.min_words ≤ s.max_words ∧ s.max_words ≤ 100

instance (s : WordLimits) : Decidable (limitsInvariant s) := by
  unfold limitsInvariant; infer_instance

/-- What `llm.min_words = value` actually does at runtime (e.g. from the
`--min` command): a plain attribute write, with no clamping and no
cross-adjustment. -/
def assign_min_words (s : WordLimits) (value : Int) : WordLimits :=
  { s with min_words := value }

/-- What `llm.max_words = value` actually does at runtime. -/
def assign_max_words (s : WordLimits) (value : Int) : WordLimits :=
  { s with max_words := value }

/-- The dead-code `min_words.setter` body (source lines 35-41): clamp to
`[1, 50]`, push `max_words` to `value + 5` when overtaken. -/
def setter_min_words (s : WordLimits) (value : Int) : WordLimits :=
  let v := max 1 (min value 50)
  let mx := if v > s.max_words then v + 5 else s.max_words
  { min_words := v, max_words := mx }

/-- The dead-code `max_words.setter` body (source lines 47-53): clamp to
`[5, 100]`, pull `min_words` down to `max(1, value - 5)` when undercut. -/
def setter_max_words (s : WordLimits) (value : Int) : WordLimits :=
  let v := max 5 (min value 100)
  let mn := if v < s.min_words then max 1 (v - 5) else s.min_words
  { min_words := mn, max_words := v }

/-- Had the setters been live, they would preserve the claimed invariant;
this supports reading the claim as the code's intent (see claim C1). -/
theorem setters_preserve_invariant (s : WordLimits) (v : Int) (h : limitsInvariant s) :
    limitsInvariant (setter_min_words s v) ∧ limitsInvariant (setter_max_words s v) := by
  obtain ⟨h1, h2, h3⟩ := h
  constructor
  · unfold setter_min_words limitsInvariant
    dsimp only
    omega
  · unfold setter_max_words limitsInvariant
    dsimp only
    omega

/-! ### Concrete states for witnesses and counterexamples -/

/-- The emotional tones installed by `_initialize_enhancements`. -/
def initTones : List (String × ToneData) :=
  [("formal", ⟨1, ["therefore", "however", "thus"]⟩),
   ("casual", ⟨4/5, ["hey", "cool", "awesome"]⟩),
   ("technical", ⟨6/5, ["algorithm", "parameter", "execute"]⟩),
   ("empathetic", ⟨11/10, ["understand", "feel", "support"]⟩)]

/-- An engine state mirroring the initial enhancement settings and default
word lists, with an empty lexicon, graph, pattern index and grammar. -/
def baseState : LLMState :=
  { word_db := []
    word_relationships := []
    pattern_relationships := []
    grammar_rules := ⟨[], [], [], []⟩
    question_words := ["?", "what", "when", "where", "why", "how", "which", "who"]
    answer_words := ["because", "therefore", "thus", "so", "hence"]
    fact_words := ["fact", "actually", "proven", "evidence", "study", "research"]
    theory_words := ["theory", "hypothesis", "maybe", "perhaps", "possibly", "could"]
    min_words := 3
    max_words := 20
    emotional_tones := initTones
    specialists := [("general", ⟨[], 1⟩)]
    creativity_level := 1/2
    creativity_boost := 3/10
    user_profiles := []
    current_user := "default" }

/-! ### Claim C1 -/

/-- C1: the claim says setting `min_words`/`max_words` goes through
validating setters keeping `1 ≤ min_words ≤ max_words ≤ 100`.  The code is
wrong (code bug): the property setters are defined as local functions inside
`__init__` and never attached to the class, so `llm.min_words = 500` (from
`--min500`) is a plain attribute write.  Starting from the engine's own
initial bounds `(3, 20)`, it yields `(500, 20)` and violates the claimed
invariant. -/
theorem c1_setter_dead_code_breaks_invariant :
    assign_min_words ⟨3, 20⟩ 500 = ⟨500, 20⟩
    ∧ ¬ limitsInvariant (assign_min_words ⟨3, 20⟩ 500)
    ∧ limitsInvariant (setter_min_words ⟨3, 20⟩ 500) := by
  refine ⟨rfl, by decide, by decide⟩

/-! ### Claim C5 -/

/-- C5: importing a record whose (lower-cased) word key already exists in
the lexicon is a no-op — the `if word in self.word_db: continue` guard fires
before any attribute write or relationship building, so the whole engine
state is unchanged. -/
theorem c5_reimport_existing_word_noop (st : LLMState) (line word : String) (entry : WordData)
    (h1 : lineRecord line = some (word, entry))
    (h2 : (assocFind st.word_db word).isSome = true) :
    importLine st line = st := by
  simp [importLine, h1, h2]

def entryC5 : WordData :=
  ⟨"noun", "computer", "computers", ["machine"], [], "electronic device", [], "general"⟩

def stC5 : LLMState := { baseState with word_db := [("computer", entryC5)] }

/-- C5 witness: a conflicting second record for `computer` is ignored. -/
theorem c5_witness : importLine stC5 "verb; Computer; different" = stC5 :=
  c5_reimport_existing_word_noop stC5 "verb; Computer; different" "computer"
    ⟨"verb", "different", "", [], [], "", [], "general"⟩ (by decide) (by decide)

/-! ### Claim C10 -/

/-- C10: `enhanced_predict_next` on empty or whitespace-only text returns
the empty prediction list paired with known ratio `100` (not `0`), for every
engine state — i.e. without consulting the lexicon or the base prediction
engine. -/
theorem c10_enhanced_predict_empty_text (st : LLMState) (text mode : String)
    (h : stripEmpty text = true) :
    enhanced_predict_next st text mode = Except.ok ([], 100) := by
  unfold enhanced_predict_next
  rw [h]
  rfl

/-- C10 witness: whitespace-only input on the base state. -/
theorem c10_witness : enhanced_predict_next baseState "   " "complex" = Except.ok ([], 100) :=
  c10_enhanced_predict_empty_text baseState "   " "complex" (by decide)

/-! ### Claim C7 -/

/-- C7: the claim says `predict` on text with no recognisable word tokens
returns the pair `(rankedList, known_ratio)` with an empty ranked list rather
than raising.  The code is wrong (code bug): `predict_next` returns a bare
`[]` instead of a pair, and its own caller `enhanced_predict_next` unpacks
the result into two variables, raising `ValueError` on such input (text
`"..."` strips non-empty, so the whitespace guard does not save it). -/
theorem c7_predict_no_tokens_returns_bare_list :
    predict_next baseState "..." "complex" = Sum.inl []
    ∧ enhanced_predict_next baseState "..." "complex"
        = Except.error "ValueError: not enough values to unpack" := by
  refine ⟨by decide, rfl⟩

/-! ### Claim C6 -/

theorem classScan_first (db : List (String × WordData)) (w : String) (is : List Nat)
    (i : Nat) (d : WordData) (hmem : i ∈ is)
    (hpre : ∀ j ∈ is.takeWhile (fun j => j != i), assocFind db (takeStr w j) = none)
    (hd : assocFind db (takeStr w i) = some d) :
    classScan db w is = d.wclass := by
  induction is with
  | nil => cases hmem
  | cons k rest ih =>
      by_cases hk : k = i
      · subst hk
        simp [classScan, hd]
      · have hkb : (k != i) = true := by simp [hk]
        have hkpre : assocFind db (takeStr w k) = none := by
          apply hpre k
          simp [List.takeWhile_cons, hkb]
        have hmem' : i ∈ rest := by
          rcases List.mem_cons.mp hmem with h | h
          · exact absurd h.symm hk
          · exact h
        have hpre' : ∀ j ∈ rest.takeWhile (fun j => j != i), assocFind db (takeStr w j) = none := by
          intro j hj
          apply hpre j
          simp [List.takeWhile_cons, hkb]
          exact Or.inr hj
        simp [classScan, hkpre]
        exact ih hmem' hpre'

theorem classScan_all_none (db : List (String × WordData)) (w : String) (is : List Nat)
    (hall : ∀ j ∈ is, assocFind db (takeStr w j) = none) :
    classScan db w is = "unknown" := by
  induction is with
  | nil => rfl
  | cons k rest ih =>
      have hk := hall k (List.mem_cons_self k rest)
      simp [classScan, hk]
      exact ih (fun j hj => hall j (List.mem_cons_of_mem k hj))

/-- C6: word-class lookup returns the stored class on exact match; otherwise
it scans prefixes `word[:i]` for `i = 1, 2, ...` and returns the class of the
first (hence shortest) prefix present in the store; when no prefix is in the
store it returns the `'unknown'` sentinel.  The embedding is a total
function, which is the rendering of "never raises". -/
theorem c6_word_class_lookup (db : List (String × WordData)) (w : String) :
    (∀ d, assocFind db w = some d → get_word_class db w = d.wclass)
    ∧ (assocFind db w = none →
        ∀ i ∈ cutLengths w,
          (∀ j ∈ (cutLengths w).takeWhile (fun j => j != i),
            assocFind db (takeStr w j) = none) →
          ∀ d, assocFind db (takeStr w i) = some d → get_word_class db w = d.wclass)
    ∧ (assocFind db w = none →
        (∀ j ∈ cutLengths w, assocFind db (takeStr w j) = none) →
        get_word_class db w = "unknown") := by
  refine ⟨?_, ?_, ?_⟩
  · intro d hd
    simp [get_word_class, hd]
  · intro hnone i hi hpre d hd
    simp [get_word_class, hnone]
    exact classScan_first db w (cutLengths w) i d hi hpre hd
  · intro hnone hall
    simp [get_word_class, hnone]
    exact classScan_all_none db w (cutLengths w) hall

def dbC6 : List (String × WordData) :=
  [("co", ⟨"noun", "co", "", [], [], "", [], "general"⟩)]

/-- C6 witness: `computer` matches the stored prefix `co` (shortest-prefix
rule), `co` matches exactly, and `qzxy` shares no prefix with the store. -/
theorem c6_witness :
    get_word_class dbC6 "computer" = "noun"
    ∧ get_word_class dbC6 "co" = "noun"
    ∧ get_word_class dbC6 "qzxy" = "unknown" := by
  refine ⟨?_, ?_, ?_⟩
  · exact (c6_word_class_lookup dbC6 "computer").2.1 (by decide) 2 (by decide) (by decide)
      ⟨"noun", "co", "", [], [], "", [], "general"⟩ (by decide)
  · exact (c6_word_class_lookup dbC6 "co").1
      ⟨"noun", "co", "", [], [], "", [], "general"⟩ (by decide)
  · exact (c6_word_class_lookup dbC6 "qzxy").2.2 (by decide) (by decide)

/-! ### Claim C9 -/

/-- C9: the known-word ratio is `0` when there are no non-punctuation tokens
(the zero-token case is the guarded division), always lies in `[0, 100]`, and
an unknown token enlarges the denominator count but not the numerator
count. -/
theorem c9_known_ratio_bounds (db : List (String × WordData)) (words : List String)
    (t : String) (hp : isPunct t = false) (hu : get_word_class db t = "unknown") :
    0 ≤ known_words_ratio db words
    ∧ known_words_ratio db words ≤ 100
    ∧ known_words_ratio db (words.filter (fun w => isPunct w)) = 0
    ∧ ((t :: words).filter (fun w => !(isPunct w))).length
        = (words.filter (fun w => !(isPunct w))).length + 1
    ∧ ((t :: words).filter (fun w => !(isPunct w) && get_word_class db w != "unknown")).length
        = (words.filter (fun w => !(isPunct w) && get_word_class db w != "unknown")).length := by
  have hsub :
      (words.filter (fun w => !(isPunct w) && get_word_class db w != "unknown")).length
        ≤ (words.filter (fun w => !(isPunct w))).length := by
    rw [← List.filter_filter]
    exact List.Sublist.length_le
      (List.Sublist.filter _
        (List.filter_sublist (p := fun w => get_word_class db w != "unknown") words))
  refine ⟨?_, ?_, ?_, ?_, ?_⟩
  · simp only [known_words_ratio]
    split_ifs
    · exact le_refl 0
    · positivity
  · simp only [known_words_ratio]
    split_ifs with hwc
    · norm_num
    · have hpos : (0 : Rat) < ((words.filter (fun w => !(isPunct w))).length : Rat) := by
        have := Nat.pos_of_ne_zero hwc
        exact_mod_cast this
      have hdiv :
          (((words.filter (fun w => !(isPunct w) && get_word_class db w != "unknown")).length : Rat)
            / ((words.filter (fun w => !(isPunct w))).length : Rat)) ≤ 1 :=
        (div_le_one hpos).mpr (by exact_mod_cast hsub)
      calc ((words.filter (fun w => !(isPunct w) && get_word_class db w != "unknown")).length : Rat)
            / ((words.filter (fun w => !(isPunct w))).length : Rat) * 100
          ≤ 1 * 100 := mul_le_mul_of_nonneg_right hdiv (by norm_num)
        _ = 100 := by norm_num
  · have hempty : (words.filter (fun w => isPunct w)).filter (fun w => !(isPunct w)) = [] := by
      rw [List.filter_filter]
      simp
    simp [known_words_ratio, hempty]
  · simp [List.filter_cons, hp]
  · simp [List.filter_cons, hp, hu]

/-- C9 witness: `qzxy` is not punctuation, resolves to `unknown`, and is
counted only in the denominator; the ratio is bounded on a concrete input. -/
theorem c9_witness :
    0 ≤ known_words_ratio dbC6 ["co"]
    ∧ known_words_ratio dbC6 ["co"] ≤ 100
    ∧ known_words_ratio dbC6 (["co"].filter (fun w => isPunct w)) = 0
    ∧ (("qzxy" :: ["co"]).filter (fun w => !(isPunct w))).length
        = (["co"].filter (fun w => !(isPunct w))).length + 1
    ∧ (("qzxy" :: ["co"]).filter
        (fun w => !(isPunct w) && get_word_class dbC6 w != "unknown")).length
        = (["co"].filter
            (fun w => !(isPunct w) && get_word_class dbC6 w != "unknown")).length :=
  c9_known_ratio_bounds dbC6 ["co"] "qzxy" (by decide) (by decide)

/-! ### Claim C8 -/

theorem patPosGet_eq_relGet (pat : List (String × PatternData)) (w pos other : String) :
    patPosGet pat w pos other = relGet (patFind pat w).position_context pos other := rfl

theorem patFind_beforeAdd_self (pat : List (String × PatternData)) (w other : String) (d : Rat) :
    patFind (patBeforeAdd pat w other d) w
      = { patFind pat w with before := assocAdd (patFind pat w).before other d } := by
  unfold patFind patBeforeAdd
  rw [assocFind_update_self]
  rfl

theorem patFind_beforeAdd_ne (pat : List (String × PatternData)) (w other x : String) (d : Rat)
    (hx : x ≠ w) : patFind (patBeforeAdd pat w other d) x = patFind pat x := by
  unfold patFind patBeforeAdd
  rw [assocFind_update_ne _ _ _ _ hx]

theorem patFind_afterAdd_self (pat : List (String × PatternData)) (w other : String) (d : Rat) :
    patFind (patAfterAdd pat w other d) w
      = { patFind pat w with after := assocAdd (patFind pat w).after other d } := by
  unfold patFind patAfterAdd
  rw [assocFind_update_self]
  rfl

theorem patFind_afterAdd_ne (pat : List (String × PatternData)) (w other x : String) (d : Rat)
    (hx : x ≠ w) : patFind (patAfterAdd pat w other d) x = patFind pat x := by
  unfold patFind patAfterAdd
  rw [assocFind_update_ne _ _ _ _ hx]

theorem patFind_posAdd_self (pat : List (String × PatternData)) (w pos other : String) (d : Rat) :
    patFind (patPosAdd pat w pos other d) w
      = { patFind pat w with
          position_context := relAdd (patFind pat w).position_context pos other d } := by
  unfold patFind patPosAdd
  rw [assocFind_update_self]
  rfl

theorem patFind_posAdd_ne (pat : List (String × PatternData)) (w pos other x : String) (d : Rat)
    (hx : x ≠ w) : patFind (patPosAdd pat w pos other d) x = patFind pat x := by
  unfold patFind patPosAdd
  rw [assocFind_update_ne _ _ _ _ hx]

/-- Pointwise comparison of two pattern indices over every bucket. -/
def patIndexLE (p q : List (String × PatternData)) : Prop :=
  ∀ w other, patBeforeGet p w other ≤ patBeforeGet q w other
    ∧ patAfterGet p w other ≤ patAfterGet q w other
    ∧ ∀ pos, patPosGet p w pos other ≤ patPosGet q w pos other

theorem patIndexLE_refl (p : List (String × PatternData)) : patIndexLE p p :=
  fun _ _ => ⟨le_refl _, le_refl _, fun _ => le_refl _⟩

theorem patIndexLE_trans {p q r : List (String × PatternData)}
    (h1 : patIndexLE p q) (h2 : patIndexLE q r) : patIndexLE p r := by
  intro w other
  obtain ⟨a1, b1, c1⟩ := h1 w other
  obtain ⟨a2, b2, c2⟩ := h2 w other
  exact ⟨le_trans a1 a2, le_trans b1 b2, fun pos => le_trans (c1 pos) (c2 pos)⟩

theorem patIndexLE_beforeAdd (pat : List (String × PatternData)) (w other : String) (d : Rat)
    (hd : 0 ≤ d) : patIndexLE pat (patBeforeAdd pat w other d) := by
  intro x y
  by_cases hx : x = w
  · subst hx
    simp only [patBeforeGet, patAfterGet, patPosGet_eq_relGet, patFind_beforeAdd_self]
    refine ⟨?_, le_refl _, fun pos => le_refl _⟩
    by_cases hy : y = other
    · subst hy
      rw [assocGet0_add_eq]
      exact le_add_of_nonneg_right hd
    · rw [assocGet0_add_ne _ _ _ _ hy]
  · simp only [patBeforeGet, patAfterGet, patPosGet_eq_relGet,
      patFind_beforeAdd_ne pat w other x d hx]
    exact ⟨le_refl _, le_refl _, fun pos => le_refl _⟩

theorem patIndexLE_afterAdd (pat : List (String × PatternData)) (w other : String) (d : Rat)
    (hd : 0 ≤ d) : patIndexLE pat (patAfterAdd pat w other d) := by
  intro x y
  by_cases hx : x = w
  · subst hx
    simp only [patBeforeGet, patAfterGet, patPosGet_eq_relGet, patFind_afterAdd_self]
    refine ⟨le_refl _, ?_, fun pos => le_refl _⟩
    by_cases hy : y = other
    · subst hy
      rw [assocGet0_add_eq]
      exact le_add_of_nonneg_right hd
    · rw [assocGet0_add_ne _ _ _ _ hy]
  · simp only [patBeforeGet, patAfterGet, patPosGet_eq_relGet,
      patFind_afterAdd_ne pat w other x d hx]
    exact ⟨le_refl _, le_refl _, fun pos => le_refl _⟩

theorem patIndexLE_posAdd (pat : List (String × PatternData)) (w pos0 other : String) (d : Rat)
    (hd : 0 ≤ d) : patIndexLE pat (patPosAdd pat w pos0 other d) := by
  intro x y
  by_cases hx : x = w
  · subst hx
    simp only [patBeforeGet, patAfterGet, patPosGet_eq_relGet, patFind_posAdd_self]
    refine ⟨le_refl _, le_refl _, fun pos => ?_⟩
    rw [relGet_add]
    have hite : (0 : Rat) ≤ if pos = pos0 ∧ y = other then d else 0 := by
      split_ifs
      · exact hd
      · exact le_refl 0
    exact le_add_of_nonneg_right hite
  · simp only [patBeforeGet, patAfterGet, patPosGet_eq_relGet,
      patFind_posAdd_ne pat w pos0 other x d hx]
    exact ⟨le_refl _, le_refl _, fun pos => le_refl _⟩

theorem calculate_pattern_relationship_nonneg (st : LLMState) (w1 w2 : String)
    (all_words : List String) (ci : Nat) :
    0 ≤ calculate_pattern_relationship st w1 w2 all_words ci :=
  le_max_left 0 _

theorem foldl_patIndexLE {α : Type} (f : LLMState → α → LLMState)
    (hf : ∀ s a, patIndexLE s.pattern_relationships (f s a).pattern_relationships) :
    ∀ (l : List α) (s : LLMState),
      patIndexLE s.pattern_relationships ((l.foldl f s).pattern_relationships)
  | [], _ => patIndexLE_refl _
  | a :: l, s => patIndexLE_trans (hf s a) (foldl_patIndexLE f hf l (f s a))

theorem build_relationship_patterns_mono (st : LLMState) (cw : String)
    (all_words : List String) (ci : Nat) :
    patIndexLE st.pattern_relationships
      (build_relationship_patterns st cw all_words ci).pattern_relationships := by
  unfold build_relationship_patterns
  apply foldl_patIndexLE
  intro s a
  dsimp only
  split
  · exact patIndexLE_refl _
  · have hd := calculate_pattern_relationship_nonneg s cw a.2 all_words ci
    split
    · exact patIndexLE_trans
        (patIndexLE_beforeAdd s.pattern_relationships cw a.2 _ hd)
        (patIndexLE_posAdd _ cw (get_word_position a.1 all_words.length) a.2 _ hd)
    · exact patIndexLE_trans
        (patIndexLE_afterAdd s.pattern_relationships cw a.2 _ hd)
        (patIndexLE_posAdd _ cw (get_word_position a.1 all_words.length) a.2 _ hd)

/-- C8: every stored pattern-index strength is monotonically non-decreasing:
the pattern relationship strength is floored at `0`
(`max(0.0, strength)`), so the accumulations performed while analysing a
sentence never decrease any existing `before`, `after` or `position_context`
entry. -/
theorem c8_pattern_index_monotone (st : LLMState) (sentence : String) (w1 w2 : String)
    (all_words : List String) (ci : Nat) (w other pos : String) :
    0 ≤ calculate_pattern_relationship st w1 w2 all_words ci
    ∧ patBeforeGet st.pattern_relationships w other
        ≤ patBeforeGet (analyze_patterns_state st sentence).pattern_relationships w other
    ∧ patAfterGet st.pattern_relationships w other
        ≤ patAfterGet (analyze_patterns_state st sentence).pattern_relationships w other
    ∧ patPosGet st.pattern_relationships w pos other
        ≤ patPosGet (analyze_patterns_state st sentence).pattern_relationships w pos other := by
  have hmono : patIndexLE st.pattern_relationships
      (analyze_patterns_state st sentence).pattern_relationships := by
    unfold analyze_patterns_state
    apply foldl_patIndexLE
    intro s a
    dsimp only
    split
    · exact patIndexLE_refl _
    · exact build_relationship_patterns_mono s a.2 (tokenizeAll sentence) a.1
  obtain ⟨h1, h2, h3⟩ := hmono w other
  exact ⟨calculate_pattern_relationship_nonneg st w1 w2 all_words ci, h1, h2, h3 pos⟩

/-! ### Claim C3 -/

theorem assocFind_eq_none_iff {β : Type} (l : List (String × β)) (k : String) :
    assocFind l k = none ↔ ∀ p ∈ l, p.1 ≠ k := by
  induction l with
  | nil => simp [assocFind]
  | cons p rest ih =>
      rw [assocFind_cons]
      by_cases hp : p.1 = k
      · simp [hp]
      · have hb : (p.1 == k) = false := beq_false_of_ne hp
        simp [hb, ih, hp]

theorem assocFind_append_of_none {β : Type} (l1 l2 : List (String × β)) (k : String)
    (h : assocFind l1 k = none) : assocFind (l1 ++ l2) k = assocFind l2 k := by
  induction l1 with
  | nil => rfl
  | cons p rest ih =>
      rw [assocFind_cons] at h
      rw [List.cons_append, assocFind_cons]
      by_cases hp : (p.1 == k) = true
      · rw [hp] at h
        simp at h
      · have hb : (p.1 == k) = false := by
          cases hbe : (p.1 == k)
          · rfl
          · exact absurd hbe hp
        rw [hb] at h ⊢
        simp only [Bool.false_eq_true, if_false]
        exact ih h

theorem pairFold_word_db (word : String) (c : Rat) (l : List String) (st : LLMState) :
    (pairFold word c l st).word_db = st.word_db := by
  induction l generalizing st with
  | nil => rfl
  | cons x l ih => exact ih _

theorem pairFold_relGet_forward (word : String) (c : Rat) (l : List String) (st : LLMState)
    (y : String) (hy : y ≠ word) :
    relGet (pairFold word c l st).word_relationships word y
      = relGet st.word_relationships word y + c * (l.count y : Rat) := by
  induction l generalizing st with
  | nil => simp [pairFold]
  | cons x l ih =>
      have hstep : pairFold word c (x :: l) st
          = pairFold word c l
              { st with word_relationships :=
                  relAdd (relAdd st.word_relationships word x c) x word c } := rfl
      rw [hstep, ih]
      rw [relGet_add, relGet_add]
      by_cases hxy : y = x
      · subst hxy
        have hne : ¬ (word = y ∧ y = word) := fun hcon => hy hcon.2
        simp [hne, List.count_cons]
        ring
      · have h2 : ¬ (word = x ∧ y = word) := fun hcon => hy hcon.2
        have hxy2 : ¬ x = y := fun hcon => hxy hcon.symm
        simp [h2, List.count_cons, hxy, hxy2]

theorem pairFold_relGet_backward (word : String) (c : Rat) (l : List String) (st : LLMState)
    (x : String) (hx : x ≠ word) :
    relGet (pairFold word c l st).word_relationships x word
      = relGet st.word_relationships x word + c * (l.count x : Rat) := by
  induction l generalizing st with
  | nil => simp [pairFold]
  | cons z l ih =>
      have hstep : pairFold word c (z :: l) st
          = pairFold word c l
              { st with word_relationships :=
                  relAdd (relAdd st.word_relationships word z c) z word c } := rfl
      rw [hstep, ih]
      rw [relGet_add, relGet_add]
      by_cases hxz : x = z
      · subst hxz
        have hne : ¬ (x = word ∧ word = x) := fun hcon => hx hcon.1
        simp [hne, List.count_cons]
        ring
      · have h1 : ¬ (x = word ∧ word = z) := fun hcon => hx hcon.1
        have hxz2 : ¬ z = x := fun hcon => hxz hcon.symm
        simp [h1, List.count_cons, hxz, hxz2]

theorem classPairFold_word_db (word : String) (pairs : List String)
    (dbl : List (String × WordData)) (st : LLMState) :
    (classPairFold word pairs dbl st).word_db = st.word_db := by
  induction dbl generalizing st with
  | nil => rfl
  | cons p rest ih =>
      have hstep : classPairFold word pairs (p :: rest) st
          = classPairFold word pairs rest
              (if p.1 ≠ word ∧ pairs.contains p.2.wclass then
                { st with word_relationships := relAdd st.word_relationships word p.1 (3/10) }
              else st) := rfl
      rw [hstep, ih]
      split <;> rfl

theorem classPairFold_relGet_first (word : String) (pairs : List String)
    (dbl : List (String × WordData)) (st : LLMState) (y : String)
    (hy : ∀ p ∈ dbl, p.1 ≠ y) :
    relGet (classPairFold word pairs dbl st).word_relationships word y
      = relGet st.word_relationships word y := by
  induction dbl generalizing st with
  | nil => rfl
  | cons p rest ih =>
      have hstep : classPairFold word pairs (p :: rest) st
          = classPairFold word pairs rest
              (if p.1 ≠ word ∧ pairs.contains p.2.wclass then
                { st with word_relationships := relAdd st.word_relationships word p.1 (3/10) }
              else st) := rfl
      rw [hstep, ih _ (fun q hq => hy q (List.mem_cons_of_mem p hq))]
      split
      · rw [relGet_add]
        have hne : ¬ y = p.1 :=
          fun hcon => hy p (List.mem_cons_self p rest) hcon.symm
        simp [hne]
      · rfl

theorem classPairFold_relGet_ne_first (word : String) (pairs : List String)
    (dbl : List (String × WordData)) (st : LLMState) (x y : String) (hx : x ≠ word) :
    relGet (classPairFold word pairs dbl st).word_relationships x y
      = relGet st.word_relationships x y := by
  induction dbl generalizing st with
  | nil => rfl
  | cons p rest ih =>
      have hstep : classPairFold word pairs (p :: rest) st
          = classPairFold word pairs rest
              (if p.1 ≠ word ∧ pairs.contains p.2.wclass then
                { st with word_relationships := relAdd st.word_relationships word p.1 (3/10) }
              else st) := rfl
      rw [hstep, ih]
      split
      · rw [relGet_add]
        have hne : ¬ (x = word ∧ y = p.1) := fun hcon => hx hcon.1
        simp [hne]
      · rfl

theorem partFold_word_db (word : String) (is : List Nat) (st : LLMState) :
    (partFold word is st).word_db = st.word_db := by
  induction is generalizing st with
  | nil => rfl
  | cons i rest ih =>
      have hstep : partFold word (i :: rest) st
          = partFold word rest
              (if (assocFind st.word_db (takeStr word i)).isSome then
                { st with word_relationships :=
                    (relAdd
                      (relAdd st.word_relationships word (takeStr word i)
                        ((1/2 : Rat) * ((i : Rat) / (word.length : Rat))))
                      (takeStr word i) word ((1/2 : Rat) * ((i : Rat) / (word.length : Rat)))) }
              else st) := rfl
      rw [hstep, ih]
      split <;> rfl

theorem partFold_relGet (word : String) (is : List Nat) (st : LLMState) (y : String)
    (hy : assocFind st.word_db y = none) (hyw : y ≠ word) :
    relGet (partFold word is st).word_relationships word y
        = relGet st.word_relationships word y
    ∧ relGet (partFold word is st).word_relationships y word
        = relGet st.word_relationships y word := by
  induction is generalizing st with
  | nil => exact ⟨rfl, rfl⟩
  | cons i rest ih =>
      have hstep : partFold word (i :: rest) st
          = partFold word rest
              (if (assocFind st.word_db (takeStr word i)).isSome then
                { st with word_relationships :=
                    (relAdd
                      (relAdd st.word_relationships word (takeStr word i)
                        ((1/2 : Rat) * ((i : Rat) / (word.length : Rat))))
                      (takeStr word i) word ((1/2 : Rat) * ((i : Rat) / (word.length : Rat)))) }
              else st) := rfl
      by_cases hguard : (assocFind st.word_db (takeStr word i)).isSome = true
      · have hpart : takeStr word i ≠ y := by
          intro hcon
          rw [hcon] at hguard
          rw [hy] at hguard
          simp at hguard
        rw [hstep]
        simp only [hguard, if_true]
        have ihs := ih { st with word_relationships :=
            (relAdd
              (relAdd st.word_relationships word (takeStr word i)
                ((1/2 : Rat) * ((i : Rat) / (word.length : Rat))))
              (takeStr word i) word ((1/2 : Rat) * ((i : Rat) / (word.length : Rat)))) } hy
        rw [ihs.1, ihs.2]
        have hA : ¬ y = takeStr word i := fun hcon => hpart hcon.symm
        constructor
        · rw [relGet_add, relGet_add]
          have h2 : ¬ (word = takeStr word i ∧ y = word) := fun hcon => hyw hcon.2
          simp [hA, h2]
        · rw [relGet_add, relGet_add]
          have h1 : ¬ (y = word ∧ word = takeStr word i) := fun hcon => hyw hcon.1
          simp [h1, hA]
      · have hguard' : (assocFind st.word_db (takeStr word i)).isSome = false := by
          cases hg : (assocFind st.word_db (takeStr word i)).isSome
          · rfl
          · exact absurd hg hguard
        rw [hstep]
        simp only [hguard', Bool.false_eq_true, if_false]
        exact ih st hy

/-- C3: the claim (synonym rule is the only rule touching a declared pair,
leaving exactly `2.0` both ways) fails as stated — the class-pair and
partial-match rules can add further weight to the same pair within the same
record import (see `c3_counterexample`).  Amended: if the synonym `s` of the
imported word `w` occurs exactly once in the record's synonym list, is not
among its antonyms or acronyms, differs from `w`, and is not itself in the
lexicon at import time, then with no prior edges both directed weights are
exactly `2.0` immediately after the record's import. -/
theorem c3_synonym_pair_weight (st : LLMState) (line w s : String) (e : WordData)
    (h0 : lineRecord line = some (w, e))
    (h1 : assocFind st.word_db w = none)
    (h2 : e.synonyms.count s = 1)
    (h3 : e.antonyms.count s = 0)
    (h4 : e.acronyms.count s = 0)
    (h5 : assocFind st.word_db s = none)
    (h6 : s ≠ w)
    (h7 : relGet st.word_relationships w s = 0)
    (h8 : relGet st.word_relationships s w = 0) :
    relGet (importLine st line).word_relationships w s = 2
    ∧ relGet (importLine st line).word_relationships s w = 2 := by
  have himp : importLine st line
      = checkPartMatches
          (build_relationships { st with word_db := st.word_db ++ [(w, e)] } w) w := by
    simp [importLine, h0, h1]
  set st' : LLMState := { st with word_db := st.word_db ++ [(w, e)] } with hst'def
  have hdb' : st'.word_db = st.word_db ++ [(w, e)] := rfl
  have hdata : assocFind st'.word_db w = some e := by
    rw [hdb', assocFind_append_of_none _ _ _ h1]
    simp [assocFind_cons]
  have hs_none' : assocFind st'.word_db s = none := by
    rw [hdb', assocFind_append_of_none _ _ _ h5, assocFind_cons]
    have hb : (w == s) = false := beq_false_of_ne (Ne.symm h6)
    simp [hb, assocFind]
  have hBdb : (build_relationships st' w).word_db = st'.word_db := by
    simp only [build_relationships]
    rw [classPairFold_word_db, pairFold_word_db, pairFold_word_db, pairFold_word_db]
  have hW7 : relGet st'.word_relationships w s = 0 := h7
  have hW8 : relGet st'.word_relationships s w = 0 := h8
  have hkeys : ∀ p ∈ st'.word_db, p.1 ≠ s := (assocFind_eq_none_iff _ _).mp hs_none'
  have hWS : relGet (build_relationships st' w).word_relationships w s = 2
      ∧ relGet (build_relationships st' w).word_relationships s w = 2 := by
    simp only [build_relationships, hdata, Option.getD_some]
    rw [pairFold_word_db, pairFold_word_db, pairFold_word_db]
    constructor
    · rw [classPairFold_relGet_first _ _ _ _ _ hkeys]
      rw [pairFold_relGet_forward _ _ _ _ _ h6, pairFold_relGet_forward _ _ _ _ _ h6,
        pairFold_relGet_forward _ _ _ _ _ h6]
      rw [hW7, h2, h3, h4]
      norm_num
    · rw [classPairFold_relGet_ne_first _ _ _ _ _ _ h6]
      rw [pairFold_relGet_backward _ _ _ _ _ h6, pairFold_relGet_backward _ _ _ _ _ h6,
        pairFold_relGet_backward _ _ _ _ _ h6]
      rw [hW8, h2, h3, h4]
      norm_num
  have hpart := partFold_relGet w ((List.range (w.length - 1)).map (fun i => i + 1))
      (build_relationships st' w) s (by rw [hBdb]; exact hs_none') h6
  rw [himp]
  unfold checkPartMatches
  rw [hpart.1, hpart.2]
  exact hWS

def stC3 : LLMState :=
  { baseState with
      word_db := [("a", ⟨"verb", "a", "", [], [], "", [], "general"⟩)]
      grammar_rules := ⟨[("noun", ["verb"])], [], [], []⟩ }

/-- C3 counterexample: importing `noun; b; b; bs; a` into a lexicon that
already holds `a` (class `verb`, no prior edges between `a` and `b`, with
`common_pairs` making `noun` compatible with `verb`) produces
`graph_weight(b, a) = 2.3`, not `2.0`: the class-pair rule fires on the same
pair during the same import. -/
theorem c3_counterexample :
    relGet stC3.word_relationships "b" "a" = 0
    ∧ relGet stC3.word_relationships "a" "b" = 0
    ∧ relGet (importLine stC3 "noun; b; b; bs; a").word_relationships "b" "a" = 23/10
    ∧ ¬ (relGet (importLine stC3 "noun; b; b; bs; a").word_relationships "b" "a" = 2
          ∧ relGet (importLine stC3 "noun; b; b; bs; a").word_relationships "a" "b" = 2) := by
  have hlow : 'a'.toLower = 'a' := by decide
  have h23 : relGet (importLine stC3 "noun; b; b; bs; a").word_relationships "b" "a"
      = 23/10 := by
    norm_num +decide [importLine, lineRecord, parseFields, splitOnChar, splitOnCharAux,
      trimStr, lowerStr, csvList, build_relationships, pairFold, classPairFold,
      checkPartMatches, partFold, relAdd, relGet, assocUpdate, assocAdd, assocGet0,
      assocFind, List.find?, stC3, baseState, initTones, takeStr, hlow]
  refine ⟨rfl, rfl, h23, ?_⟩
  intro hcon
  rw [hcon.1] at h23
  norm_num at h23

/-- C3 witness for the amended claim: the same record imported into an empty
lexicon yields weight exactly `2.0` in both directions. -/
theorem c3_witness :
    relGet (importLine baseState "noun; b; b; bs; a").word_relationships "b" "a" = 2
    ∧ relGet (importLine baseState "noun; b; b; bs; a").word_relationships "a" "b" = 2 :=
  c3_synonym_pair_weight baseState "noun; b; b; bs; a" "b" "a"
    ⟨"noun", "b", "bs", ["a"], [], "", [], "general"⟩
    (by decide) rfl (by decide) (by decide) (by decide) rfl (by decide) rfl rfl

/-! ### Claim C4 -/

theorem insertDesc_perm (x : String × Rat) (l : List (String × Rat)) :
    List.Perm (insertDesc x l) (x :: l) := by
  induction l with
  | nil => exact List.Perm.refl _
  | cons y ys ih =>
      unfold insertDesc
      split
      · exact List.Perm.refl _
      · exact (ih.cons y).trans (List.Perm.swap x y ys)

theorem insertDesc_sorted (x : String × Rat) (l : List (String × Rat))
    (h : l.Pairwise (fun a b => b.2 ≤ a.2)) :
    (insertDesc x l).Pairwise (fun a b => b.2 ≤ a.2) := by
  induction l with
  | nil => simp [insertDesc]
  | cons y ys ih =>
      rw [List.pairwise_cons] at h
      obtain ⟨hy, hys⟩ := h
      unfold insertDesc
      split
      · rename_i hgt
        refine List.Pairwise.cons ?_ (List.Pairwise.cons hy hys)
        intro z hz
        rcases List.mem_cons.mp hz with rfl | hz
        · exact le_of_lt hgt
        · exact le_trans (hy z hz) (le_of_lt hgt)
      · rename_i hle
        refine List.Pairwise.cons ?_ (ih hys)
        intro z hz
        rcases List.mem_cons.mp ((insertDesc_perm x ys).mem_iff.mp hz) with rfl | hz2
        · exact le_of_not_lt hle
        · exact hy z hz2

theorem insertDesc_filter (x : String × Rat) (l : List (String × Rat)) (c : Rat)
    (h : l.Pairwise (fun a b => b.2 ≤ a.2)) :
    (insertDesc x l).filter (fun p => decide (p.2 = c))
      = if x.2 = c then l.filter (fun p => decide (p.2 = c)) ++ [x]
        else l.filter (fun p => decide (p.2 = c)) := by
  induction l with
  | nil =>
      by_cases hx : x.2 = c <;> simp [insertDesc, List.filter_cons, hx]
  | cons y ys ih =>
      rw [List.pairwise_cons] at h
      obtain ⟨hy, hys⟩ := h
      unfold insertDesc
      split
      · rename_i hgt
        by_cases hx : x.2 = c
        · have hempty : (y :: ys).filter (fun p => decide (p.2 = c)) = [] := by
            rw [List.filter_eq_nil_iff]
            intro a ha
            have hav : a.2 ≤ y.2 := by
              rcases List.mem_cons.mp ha with rfl | ha2
              · exact le_refl _
              · exact hy a ha2
            have halt : a.2 < c := lt_of_le_of_lt hav (hx ▸ hgt)
            simp [ne_of_lt halt]
          rw [hempty]
          simp [List.filter_cons, hx, hempty]
        · simp [List.filter_cons, hx]
      · rename_i hle
        rw [List.filter_cons, ih hys]
        by_cases hx : x.2 = c <;> by_cases hyc : y.2 = c <;>
          simp [List.filter_cons, hx, hyc]

theorem sortDescStable_core (l : List (String × Rat)) :
    ∀ acc : List (String × Rat), acc.Pairwise (fun a b => b.2 ≤ a.2) →
      (l.foldl (fun acc x => insertDesc x acc) acc).Pairwise (fun a b => b.2 ≤ a.2)
      ∧ List.Perm (l.foldl (fun acc x => insertDesc x acc) acc) (acc ++ l)
      ∧ ∀ c : Rat,
          (l.foldl (fun acc x => insertDesc x acc) acc).filter (fun p => decide (p.2 = c))
            = acc.filter (fun p => decide (p.2 = c)) ++ l.filter (fun p => decide (p.2 = c)) := by
  induction l with
  | nil => intro acc hacc; simp [hacc]
  | cons x xs ih =>
      intro acc hacc
      have h1 := insertDesc_sorted x acc hacc
      obtain ⟨s1, p1, f1⟩ := ih (insertDesc x acc) h1
      refine ⟨s1, ?_, ?_⟩
      · have hmid : List.Perm ((x :: acc) ++ xs) (acc ++ x :: xs) := (List.perm_middle).symm
        exact p1.trans (((insertDesc_perm x acc).append_right xs).trans hmid)
      · intro c
        rw [List.foldl_cons, f1 c, insertDesc_filter x acc c hacc, List.filter_cons]
        by_cases hx : x.2 = c <;> simp [hx]

theorem sortDescStable_spec (l : List (String × Rat)) :
    (sortDescStable l).Pairwise (fun a b => b.2 ≤ a.2)
    ∧ List.Perm (sortDescStable l) l
    ∧ ∀ c : Rat, (sortDescStable l).filter (fun p => decide (p.2 = c))
        = l.filter (fun p => decide (p.2 = c)) := by
  obtain ⟨hs, hp, hf⟩ := sortDescStable_core l [] (List.Pairwise.nil)
  exact ⟨hs, hp, fun c => by rw [sortDescStable, hf c]; rfl⟩

theorem get_top_predictions_spec (scores : List (String × Rat)) :
    (get_top_predictions scores).Pairwise (fun a b => b.2 ≤ a.2)
    ∧ (∀ p ∈ get_top_predictions scores, 0 < p.2)
    ∧ (get_top_predictions scores).length ≤ 10
    ∧ ∀ c : Rat, List.IsPrefix
        ((get_top_predictions scores).filter (fun p => decide (p.2 = c)))
        ((scores.filter (fun p => decide (0 < p.2))).filter (fun p => decide (p.2 = c))) := by
  obtain ⟨hs, hp, hf⟩ := sortDescStable_spec (scores.filter (fun p => decide (0 < p.2)))
  refine ⟨?_, ?_, ?_, ?_⟩
  · exact List.Pairwise.sublist (List.take_sublist _ _) hs
  · intro p hmem
    have hmem2 : p ∈ sortDescStable (scores.filter (fun p => decide (0 < p.2))) :=
      List.take_subset _ _ hmem
    have hmem3 : p ∈ scores.filter (fun p => decide (0 < p.2)) := hp.mem_iff.mp hmem2
    have hpos := (List.mem_filter.mp hmem3).2
    simpa using hpos
  · exact List.length_take_le _ _
  · intro c
    unfold get_top_predictions
    rw [← hf c]
    conv_rhs =>
      rw [← List.take_append_drop 10 (sortDescStable (scores.filter (fun p => decide (0 < p.2))))]
    rw [List.filter_append]
    exact List.prefix_append _ _

/-- C4: the claim (ranked list strictly descending by score) fails as
stated — equal scores are possible and are kept in first-encountered order
(see `c4_counterexample`).  Amended: the ranked list returned by `predict`
is sorted in non-increasing order of score, with ties broken stably by
first-encountered candidate order (for each score value `c`, its entries
form a prefix of the equally-scored positive entries in the score
dictionary's insertion order); every returned score is strictly positive and
the list has at most 10 entries. -/
theorem c4_predictions_ranked (st : LLMState) (text mode : String)
    (l : List (String × Rat)) (r : Rat) (c : Rat)
    (h : predict_next st text mode = Sum.inr (l, r)) :
    List.Pairwise (fun a b : String × Rat => b.2 ≤ a.2) l
    ∧ (∀ p ∈ l, 0 < p.2)
    ∧ l.length ≤ 10
    ∧ List.IsPrefix (l.filter (fun p => decide (p.2 = c)))
        (((predict_scores st text mode).filter
          (fun p => decide (0 < p.2))).filter (fun p => decide (p.2 = c))) := by
  have hl : l = get_top_predictions (predict_scores st text mode) := by
    by_cases hw : ((tokenizeWords text).filter (fun w => !(isPunct w))) = []
    · simp only [predict_next, hw, if_true, ite_true] at h
      simp at h
    · by_cases hm : mode = "simple"
      · simp only [predict_next, predict_scores, hw, hm, if_false, if_true, ite_true,
          ite_false] at h ⊢
        exact (congrArg Prod.fst (Sum.inr.inj h)).symm
      · simp only [predict_next, predict_scores, hw, hm, if_false, if_true, ite_true,
          ite_false] at h ⊢
        exact (congrArg Prod.fst (Sum.inr.inj h)).symm
  obtain ⟨hs, hp, hlen, hpre⟩ := get_top_predictions_spec (predict_scores st text mode)
  rw [hl]
  exact ⟨hs, hp, hlen, hpre c⟩

def stC4 : LLMState :=
  { baseState with
      word_db := [("dog", ⟨"noun", "", "", [], [], "", [], "general"⟩),
                  ("run", ⟨"verb", "", "", [], [], "", [], "general"⟩),
                  ("walk", ⟨"verb", "", "", [], [], "", [], "general"⟩)],
      grammar_rules := ⟨[], [], [("noun", [("verb", 9/10)])], []⟩ }

/-- Concrete evaluation of simple-mode prediction on `stC4`: the flat `+0.2`
class bonus gives `run` and `walk` the same score. -/
theorem c4_eval :
    predict_next stC4 "dog" "simple" = Sum.inr ([("run", 1/5), ("walk", 1/5)], 100) := by
  have htw : (tokenizeWords "dog").filter (fun w => !(isPunct w)) = ["dog"] := by decide
  have hta : tokenizeAll "dog" = ["dog"] := by decide
  have hlast : lastD ["dog"] = "dog" := by decide
  have hcls : get_word_class stC4.word_db "dog" = "noun" := by decide
  have hexp : get_expected_classes stC4 "noun" = ["verb"] := by decide
  norm_num +decide [predict_next, simple_scores, get_top_predictions, sortDescStable,
    insertDesc, known_words_ratio, htw, hta, hlast, hcls, hexp, assocFind, assocAdd,
    assocUpdate, assocGet0, patFind, List.find?, List.filter_cons, stC4, baseState,
    initTones, emptyPatternData]

/-- C4 counterexample: with two verbs in the lexicon and `dog` as input, both
candidates score exactly `0.2`, so the ranked list `[(run, 0.2), (walk, 0.2)]`
is not strictly descending by score. -/
theorem c4_counterexample :
    predict_next stC4 "dog" "simple" = Sum.inr ([("run", 1/5), ("walk", 1/5)], 100)
    ∧ ¬ List.Pairwise (fun a b : String × Rat => b.2 < a.2)
        [("run", (1/5 : Rat)), ("walk", (1/5 : Rat))] := by
  refine ⟨c4_eval, ?_⟩
  intro hcon
  rw [List.pairwise_cons] at hcon
  have hlt := hcon.1 ("walk", (1/5 : Rat)) (by simp)
  norm_num at hlt

/-- C4 witness: the amended ranking properties instantiated on the concrete
prediction of `stC4`. -/
theorem c4_witness :
    List.Pairwise (fun a b : String × Rat => b.2 ≤ a.2)
      [("run", (1/5 : Rat)), ("walk", (1/5 : Rat))]
    ∧ ([("run", (1/5 : Rat)), ("walk", (1/5 : Rat))] : List (String × Rat)).length ≤ 10 := by
  have hspec := c4_predictions_ranked stC4 "dog" "simple"
    [("run", (1/5 : Rat)), ("walk", (1/5 : Rat))] 100 (1/5) c4_eval
  exact ⟨hspec.1, hspec.2.2.1⟩

/-! ### Claim C2 -/

theorem expand_len_ge (st : LLMState) (predictions : List (String × Rat)) :
    ∀ (cs : List String) (g : List String),
      g.length ≤ (expand_by_classes st predictions cs g).length := by
  intro cs
  induction cs with
  | nil => intro g; exact le_refl _
  | cons c rest ih =>
      intro g
      have hstep : expand_by_classes st predictions (c :: rest) g
          = if st.max_words ≤ g.length then g
            else
              match find_best_word_for_class st predictions c g with
              | some w =>
                  if w = "" then expand_by_classes st predictions rest g
                  else expand_by_classes st predictions rest (g ++ [w])
              | none => expand_by_classes st predictions rest g := rfl
      rw [hstep]
      split
      · exact le_refl _
      · cases hfind : find_best_word_for_class st predictions c g with
        | some w =>
            simp only
            split
            · exact ih g
            · calc g.length ≤ (g ++ [w]).length := by simp
                _ ≤ _ := ih (g ++ [w])
        | none => exact ih g

theorem backfill_len_ge (st : LLMState) (predictions : List (String × Rat)) :
    ∀ (n : Nat) (g : List String), st.min_words - g.length ≤ n →
      g.length ≤ (backfill st predictions g).length := by
  intro n
  induction n with
  | zero =>
      intro g hg
      unfold backfill
      split
      · rename_i hlt
        omega
      · exact le_refl _
  | succ n ih =>
      intro g hg
      unfold backfill
      split
      · rename_i hlt
        cases hfind : find_backfill_word st predictions g with
        | some w =>
            simp only
            have hrec := ih (g ++ [w]) (by simp; omega)
            calc g.length ≤ (g ++ [w]).length := by simp
              _ ≤ _ := hrec
        | none => exact le_refl _
      · exact le_refl _

theorem backfill_min_reached (st : LLMState) (predictions : List (String × Rat))
    (H : ∀ g : List String, g ≠ [] → g.length < st.min_words →
      ∃ p ∈ predictions, g.contains p.1 = false
        ∧ is_grammatically_compatible st (lastD g) p.1 = true) :
    ∀ (n : Nat) (g : List String), st.min_words - g.length ≤ n → g ≠ [] →
      st.min_words ≤ (backfill st predictions g).length := by
  intro n
  induction n with
  | zero =>
      intro g hg hne
      unfold backfill
      split
      · rename_i hlt
        omega
      · rename_i hge
        exact le_of_not_lt hge
  | succ n ih =>
      intro g hg hne
      unfold backfill
      split
      · rename_i hlt
        obtain ⟨p, hp, hc1, hc2⟩ := H g hne hlt
        have hfind : ∃ q, find_backfill_word st predictions g = some q := by
          unfold find_backfill_word
          cases hff : List.find?
              (fun p => !g.contains p.1 && is_grammatically_compatible st (lastD g) p.1)
              predictions with
          | none =>
              exfalso
              have hsome : (List.find?
                  (fun p => !g.contains p.1 && is_grammatically_compatible st (lastD g) p.1)
                  predictions).isSome = true := by
                rw [List.find?_isSome]
                refine ⟨p, hp, ?_⟩
                simp [hc2]
                simpa using hc1
              rw [hff] at hsome
              simp at hsome
          | some q => exact ⟨q.1, by simp [hff]⟩
        cases hfw : find_backfill_word st predictions g with
        | none =>
            obtain ⟨q, hq⟩ := hfind
            rw [hfw] at hq
            cases hq
        | some w =>
            simp only
            exact ih (g ++ [w]) (by simp; omega) (by simp)
      · rename_i hge
        exact le_of_not_lt hge

theorem c2_core (st : LLMState) (predictions : List (String × Rat)) (iw : List String)
    (hne : iw ≠ [])
    (hminmax : st.min_words ≤ st.max_words)
    (hinlen : iw.length ≤ st.max_words)
    (H : ∀ g : List String, g ≠ [] → g.length < st.min_words →
      ∃ p ∈ predictions, g.contains p.1 = false
        ∧ is_grammatically_compatible st (lastD g) p.1 = true) :
    iw.length ≤ (generate_sentence_words st iw predictions).length
    ∧ (generate_sentence_words st iw predictions).length ≤ st.max_words
    ∧ st.min_words ≤ (generate_sentence_words st iw predictions).length := by
  have hgw : generate_sentence_words st iw predictions
      = (if st.max_words
            < (backfill st predictions
                (expand_by_classes st predictions
                  (get_most_probable_classes st iw predictions) iw)).length then
          (backfill st predictions
            (expand_by_classes st predictions
              (get_most_probable_classes st iw predictions) iw)).take st.max_words
        else
          backfill st predictions
            (expand_by_classes st predictions
              (get_most_probable_classes st iw predictions) iw)) := rfl
  set g1 := expand_by_classes st predictions (get_most_probable_classes st iw predictions) iw
    with hg1
  set g2 := backfill st predictions g1 with hg2
  have h1 : iw.length ≤ g1.length := expand_len_ge st predictions _ iw
  have h2 : g1.length ≤ g2.length := backfill_len_ge st predictions _ g1 (le_refl _)
  have hne1 : g1 ≠ [] := by
    intro hcon
    rw [hcon] at h1
    simp at h1
    exact hne h1
  have h3 : st.min_words ≤ g2.length :=
    backfill_min_reached st predictions H _ g1 (le_refl _) hne1
  rw [hgw]
  split
  · rename_i hgt
    refine ⟨?_, ?_, ?_⟩
    · rw [List.length_take]; omega
    · rw [List.length_take]; omega
    · rw [List.length_take]; omega
  · rename_i hle
    push_neg at hle
    exact ⟨le_trans h1 h2, hle, h3⟩

/-- C2: the claim fails as stated — truncation to the configured maximum can
return fewer tokens than the input had (see `c2_counterexample`).  Amended:
for input whose word-token count does not exceed the configured maximum (and
with `min_words ≤ max_words`, as the bounds invariant intends), the
generated word sequence is at least as long as the input's, never exceeds
the configured maximum, and reaches the configured minimum whenever enough
distinct, grammatically compatible predictions exist (formalised as: from
every non-empty partial sequence below the minimum, some unused compatible
prediction is available); input with no word tokens returns the original
text unchanged. -/
theorem c2_generate_sentence_bounds (st : LLMState) (text : String)
    (predictions : List (String × Rat))
    (hminmax : st.min_words ≤ st.max_words)
    (hinlen : ((tokenizeWords text).filter (fun w => !(isPunct w))).length ≤ st.max_words)
    (henough : ∀ g : List String, g ≠ [] → g.length < st.min_words →
        ∃ p ∈ predictions, g.contains p.1 = false
          ∧ is_grammatically_compatible st (lastD g) p.1 = true) :
    ((tokenizeWords text).filter (fun w => !(isPunct w)) = []
        ∧ generate_sentence st text predictions = text)
    ∨ ((tokenizeWords text).filter (fun w => !(isPunct w)) ≠ []
        ∧ ((tokenizeWords text).filter (fun w => !(isPunct w))).length
            ≤ (generate_sentence_words st
                ((tokenizeWords text).filter (fun w => !(isPunct w))) predictions).length
        ∧ (generate_sentence_words st
            ((tokenizeWords text).filter (fun w => !(isPunct w))) predictions).length
            ≤ st.max_words
        ∧ st.min_words
            ≤ (generate_sentence_words st
                ((tokenizeWords text).filter (fun w => !(isPunct w))) predictions).length) := by
  by_cases hempty : (tokenizeWords text).filter (fun w => !(isPunct w)) = []
  · left
    refine ⟨hempty, ?_⟩
    unfold generate_sentence
    rw [if_pos hempty]
  · right
    obtain ⟨h1, h2, h3⟩ := c2_core st predictions
      ((tokenizeWords text).filter (fun w => !(isPunct w))) hempty hminmax hinlen henough
    exact ⟨hempty, h1, h2, h3⟩

def stC2 : LLMState := { baseState with max_words := 5 }

/-- C2 counterexample: a seven-token input with `max_words = 5` is truncated
to five tokens, so the output has fewer tokens than the input. -/
theorem c2_counterexample :
    (tokenizeWords "a b c d e f g").filter (fun w => !(isPunct w))
      = ["a", "b", "c", "d", "e", "f", "g"]
    ∧ (generate_sentence_words stC2 ["a", "b", "c", "d", "e", "f", "g"] []).length = 5
    ∧ ¬ ((["a", "b", "c", "d", "e", "f", "g"] : List String).length
          ≤ (generate_sentence_words stC2 ["a", "b", "c", "d", "e", "f", "g"] []).length) := by
  have hmp : get_most_probable_classes stC2 ["a", "b", "c", "d", "e", "f", "g"] [] = [] := by
    decide
  have hexpand : expand_by_classes stC2 [] [] ["a", "b", "c", "d", "e", "f", "g"]
      = ["a", "b", "c", "d", "e", "f", "g"] := rfl
  have hbf : backfill stC2 [] ["a", "b", "c", "d", "e", "f", "g"]
      = ["a", "b", "c", "d", "e", "f", "g"] := by
    unfold backfill
    norm_num [stC2, baseState, initTones]
  have hlen : (generate_sentence_words stC2 ["a", "b", "c", "d", "e", "f", "g"] []).length
      = 5 := by
    unfold generate_sentence_words
    simp only [hmp, hexpand, hbf]
    norm_num [stC2, baseState, initTones]
  refine ⟨by decide, hlen, ?_⟩
  rw [hlen]
  decide

theorem assocFind_some_mem {β : Type} (l : List (String × β)) (k : String) (v : β)
    (h : assocFind l k = some v) : ∃ p ∈ l, p.2 = v := by
  unfold assocFind at h
  cases hf : List.find? (fun p => p.1 == k) l with
  | none => rw [hf] at h; simp at h
  | some q =>
      rw [hf] at h
      simp at h
      exact ⟨q, List.mem_of_find?_eq_some hf, h⟩

theorem classScan_cases (db : List (String × WordData)) (w : String) (is : List Nat) :
    classScan db w is = "unknown" ∨ ∃ p ∈ db, classScan db w is = p.2.wclass := by
  induction is with
  | nil => left; rfl
  | cons i rest ih =>
      unfold classScan
      cases hf : assocFind db (takeStr w i) with
      | some d =>
          right
          obtain ⟨p, hp, hpd⟩ := assocFind_some_mem _ _ _ hf
          exact ⟨p, hp, by rw [hpd]⟩
      | none => exact ih

theorem get_word_class_cases (db : List (String × WordData)) (w : String) :
    get_word_class db w = "unknown" ∨ ∃ p ∈ db, get_word_class db w = p.2.wclass := by
  unfold get_word_class
  cases hf : assocFind db w with
  | some d =>
      right
      obtain ⟨p, hp, hpd⟩ := assocFind_some_mem _ _ _ hf
      exact ⟨p, hp, by rw [hpd]⟩
  | none => exact classScan_cases db w (cutLengths w)

def stW2 : LLMState :=
  { baseState with
      word_db := [("b", ⟨"verb", "", "", [], [], "", [], "general"⟩),
                  ("c", ⟨"verb", "", "", [], [], "", [], "general"⟩)],
      grammar_rules :=
        ⟨[], [], [("verb", [("verb", 9/10)]), ("unknown", [("verb", 9/10)])], []⟩,
      min_words := 2, max_words := 5 }

def predsW2 : List (String × Rat) := [("b", 1), ("c", 1)]

theorem stW2_compat (x cand : String) (hc : get_word_class stW2.word_db cand = "verb") :
    is_grammatically_compatible stW2 x cand = true := by
  unfold is_grammatically_compatible
  by_cases hx : x = ""
  · simp [hx]
  · rw [if_neg hx, hc]
    have hflow : ∀ cl : String, cl = "verb" ∨ cl = "unknown" →
        (assocFind ((assocFind stW2.grammar_rules.flow_rules cl).getD []) "verb").getD 0
          = 9/10 := by
      intro cl hcl
      rcases hcl with rfl | rfl <;> rfl
    rcases get_word_class_cases stW2.word_db x with h | ⟨p, hp, h⟩
    · rw [h, hflow "unknown" (Or.inr rfl)]
      norm_num
    · have hpv : p.2.wclass = "verb" := by
        have : p = ("b", (⟨"verb", "", "", [], [], "", [], "general"⟩ : WordData))
            ∨ p = ("c", (⟨"verb", "", "", [], [], "", [], "general"⟩ : WordData)) := by
          simpa [stW2, baseState, initTones] using hp
        rcases this with rfl | rfl <;> rfl
      rw [h, hpv, hflow "verb" (Or.inl rfl)]
      norm_num

theorem predsW2_enough : ∀ g : List String, g ≠ [] → g.length < stW2.min_words →
    ∃ p ∈ predsW2, g.contains p.1 = false
      ∧ is_grammatically_compatible stW2 (lastD g) p.1 = true := by
  intro g hne hlen
  have hminw : stW2.min_words = 2 := rfl
  rw [hminw] at hlen
  have hb : get_word_class stW2.word_db "b" = "verb" := by decide
  have hc : get_word_class stW2.word_db "c" = "verb" := by decide
  cases g with
  | nil => exact absurd rfl hne
  | cons x rest =>
      cases rest with
      | cons y rest2 =>
          exfalso
          simp only [List.length_cons] at hlen
          omega
      | nil =>
          by_cases hx : x = "b"
          · refine ⟨("c", 1), by simp [predsW2], ?_, ?_⟩
            · subst hx
              decide
            · exact stW2_compat (lastD [x]) "c" hc
          · refine ⟨("b", 1), by simp [predsW2], ?_, ?_⟩
            · simp only [List.contains_cons, List.contains_nil, Bool.or_false]
              exact beq_false_of_ne (fun hcon => hx hcon.symm)
            · exact stW2_compat (lastD [x]) "b" hb

/-- C2 witness: on `stW2` (min 2, max 5) with two universally compatible
predictions and the one-token input `b`, the generated sequence has between
2 and 5 tokens. -/
theorem c2_witness :
    stW2.min_words
      ≤ (generate_sentence_words stW2
          ((tokenizeWords "b").filter (fun w => !(isPunct w))) predsW2).length
    ∧ (generate_sentence_words stW2
        ((tokenizeWords "b").filter (fun w => !(isPunct w))) predsW2).length
      ≤ stW2.max_words := by
  have h := c2_generate_sentence_bounds stW2 "b" predsW2 (by decide) (by decide) predsW2_enough
  rcases h with ⟨habs, _⟩ | ⟨_, h1, h2, h3⟩
  · exact absurd habs (by decide)
  · exact ⟨h3, h2⟩
